import Mathlib

set_option linter.unusedSectionVars false

/-!
Formal model of the Minerva multi-physics engine core, shallowly embedded
from the C++ sources:

* `simcore/math/vec3.hpp`          — double-precision 3-vectors,
* `simcore/spatial/neighbor_list.cpp/.hpp` — cell-list neighbor structure,
* `modules/md/md_system.cpp/.hpp`  — Lennard-Jones forces, velocity Verlet,
  Berendsen thermostat, neighbor-list maintenance,
* `modules/rb/rigid_body_system.cpp/.hpp` — rigid-body solver,
* `simcore/utils/overlap_checker.hpp` — initial-overlap resolution pre-pass,
* `simcore/scheduler/scheduler.hpp` and `simcore/world.hpp` — scheduler and
  world clock.

Modelling conventions:

* C++ `double` arithmetic is modelled exactly over an arbitrary linear ordered
  field `α` (instantiated at `ℚ` for executable checks and at `ℝ` where the
  library square root is semantically needed).  `std::sqrt` is passed in as an
  explicit function parameter `sqrtFn`; theorems that do not depend on the
  value of the square root quantify over it, and theorems that do are stated
  at `α := ℝ` with `sqrtFn := Real.sqrt`.
* `static_cast<int>(d)` on a double truncates toward zero; it is modelled by
  `truncToInt`.  `std::floor` is `Int.floor`.
* Reading element 0 of an empty `std::vector` is undefined behaviour; the one
  code path that can do this (the MD neighbor-list rebuild with zero
  particles, `md_system.cpp` line 127) is modelled with `Option`, returning
  `none` exactly on that path.
* `std::size_t` indices are `ℕ`; `int` counts are `ℤ`.
-/

namespace Minerva

/-- Three-component vector, `simcore/math/vec3.hpp` `struct Vec3`. -/
structure Vec3 (α : Type) where
  x : α
  y : α
  z : α
deriving DecidableEq, Repr

namespace Vec3

variable {α : Type} [LinearOrderedField α]

/-- Componentwise `operator+`. -/
protected def add (a b : Vec3 α) : Vec3 α := ⟨a.x + b.x, a.y + b.y, a.z + b.z⟩

/-- Componentwise `operator-`. -/
protected def sub (a b : Vec3 α) : Vec3 α := ⟨a.x - b.x, a.y - b.y, a.z - b.z⟩

/-- Scalar multiplication `operator*(double)`. -/
protected def smul (s : α) (a : Vec3 α) : Vec3 α := ⟨s * a.x, s * a.y, s * a.z⟩

/-- Scalar division `operator/(double)`. -/
protected def divs (a : Vec3 α) (s : α) : Vec3 α := ⟨a.x / s, a.y / s, a.z / s⟩

/-- `Vec3::dot`. -/
protected def dot (a b : Vec3 α) : α := a.x * b.x + a.y * b.y + a.z * b.z

/-- `Vec3::zero`. -/
protected def zero : Vec3 α := ⟨0, 0, 0⟩

/-- `Vec3::unit_x`. -/
protected def unitX : Vec3 α := ⟨1, 0, 0⟩

instance : Add (Vec3 α) := ⟨Vec3.add⟩
instance : Zero (Vec3 α) := ⟨Vec3.zero⟩
instance : Neg (Vec3 α) := ⟨fun a => ⟨-a.x, -a.y, -a.z⟩⟩
instance : Sub (Vec3 α) := ⟨Vec3.sub⟩

instance : AddCommGroup (Vec3 α) where
  add a b := a + b
  zero := (0 : Vec3 α)
  neg a := -a
  sub a b := a - b
  nsmul := nsmulRec
  zsmul := zsmulRec
  add_assoc a b c := by
    show Vec3.add (Vec3.add a b) c = Vec3.add a (Vec3.add b c)
    unfold Vec3.add
    simp [mk.injEq]
    refine ⟨by ring, by ring, by ring⟩
  zero_add a := by
    show Vec3.add Vec3.zero a = a
    unfold Vec3.add Vec3.zero
    simp
  add_zero a := by
    show Vec3.add a Vec3.zero = a
    unfold Vec3.add Vec3.zero
    simp
  add_comm a b := by
    show Vec3.add a b = Vec3.add b a
    unfold Vec3.add
    simp [mk.injEq]
    refine ⟨by ring, by ring, by ring⟩
  sub_eq_add_neg a b := by
    show Vec3.sub a b = Vec3.add a ⟨-b.x, -b.y, -b.z⟩
    unfold Vec3.sub Vec3.add
    simp [mk.injEq]
    refine ⟨by ring, by ring, by ring⟩
  neg_add_cancel a := by
    show Vec3.add ⟨-a.x, -a.y, -a.z⟩ a = Vec3.zero
    unfold Vec3.add Vec3.zero
    simp

instance : SMul α (Vec3 α) := ⟨Vec3.smul⟩

/-- `Vec3::norm2`, the squared Euclidean norm. -/
def norm2 (a : Vec3 α) : α := a.x * a.x + a.y * a.y + a.z * a.z

@[simp] theorem add_def (a b : Vec3 α) :
    a + b = ⟨a.x + b.x, a.y + b.y, a.z + b.z⟩ := rfl

@[simp] theorem sub_def (a b : Vec3 α) :
    a - b = ⟨a.x - b.x, a.y - b.y, a.z - b.z⟩ := rfl

@[simp] theorem smul_def (s : α) (a : Vec3 α) :
    s • a = ⟨s * a.x, s * a.y, s * a.z⟩ := rfl

@[simp] theorem zero_def : (0 : Vec3 α) = ⟨0, 0, 0⟩ := rfl

@[simp] theorem neg_def (a : Vec3 α) : -a = ⟨-a.x, -a.y, -a.z⟩ := rfl

theorem norm2_nonneg (a : Vec3 α) : 0 ≤ a.norm2 := by
  have hx := mul_self_nonneg a.x
  have hy := mul_self_nonneg a.y
  have hz := mul_self_nonneg a.z
  unfold norm2; linarith

theorem sq_x_le_norm2 (a : Vec3 α) : a.x * a.x ≤ a.norm2 := by
  have hy := mul_self_nonneg a.y
  have hz := mul_self_nonneg a.z
  unfold norm2; linarith

theorem sq_y_le_norm2 (a : Vec3 α) : a.y * a.y ≤ a.norm2 := by
  have hx := mul_self_nonneg a.x
  have hz := mul_self_nonneg a.z
  unfold norm2; linarith

theorem sq_z_le_norm2 (a : Vec3 α) : a.z * a.z ≤ a.norm2 := by
  have hx := mul_self_nonneg a.x
  have hy := mul_self_nonneg a.y
  unfold norm2; linarith

end Vec3

/-- C++ `static_cast<int>` on a floating value: truncation toward zero. -/
def truncToInt {α : Type} [LinearOrderedField α] [FloorRing α] (q : α) : ℤ :=
  if 0 ≤ q then ⌊q⌋ else ⌈q⌉

theorem truncToInt_of_nonneg {α : Type} [LinearOrderedField α] [FloorRing α]
    {q : α} (h : 0 ≤ q) : truncToInt q = ⌊q⌋ := by
  simp [truncToInt, h]

theorem truncToInt_nonpos {α : Type} [LinearOrderedField α] [FloorRing α]
    {q : α} (h : q ≤ 0) : truncToInt q ≤ 0 := by
  unfold truncToInt
  split
  · exact Int.floor_nonpos h
  · exact Int.ceil_le.mpr (by exact_mod_cast h)

section NeighborList

variable {α : Type} [LinearOrderedField α] [FloorRing α]

/-- `NeighborListConfig`, `simcore/spatial/neighbor_list.hpp`. -/
structure NeighborListConfig (α : Type) where
  cutoff : α
  skin : α
  cell_size_factor : α
  domain_min : Vec3 α
  domain_max : Vec3 α
  enable_stats : Bool
deriving DecidableEq, Repr

/-- Default member initializers of `NeighborListConfig`. -/
def defaultNeighborListConfig : NeighborListConfig α :=
  { cutoff := 25 / 10
    skin := 3 / 10
    cell_size_factor := 1
    domain_min := ⟨-10, -10, -10⟩
    domain_max := ⟨10, 10, 10⟩
    enable_stats := false }

/-- The grid geometry computed by `NeighborList::setup_grid`
(`neighbor_list.cpp` lines 12-34): per-axis cell counts (clamped to at least
one by `std::max(1, ...)`) and the actual per-axis cell size. -/
structure NLGrid (α : Type) where
  nx : ℤ
  ny : ℤ
  nz : ℤ
  cellSize : Vec3 α
deriving DecidableEq, Repr

/-- `NeighborList::setup_grid`. -/
def setupGrid (cfg : NeighborListConfig α) : NLGrid α :=
  let minCell := (cfg.cutoff + cfg.skin) * cfg.cell_size_factor
  let ds := cfg.domain_max - cfg.domain_min
  let nx := max 1 (truncToInt (ds.x / minCell))
  let ny := max 1 (truncToInt (ds.y / minCell))
  let nz := max 1 (truncToInt (ds.z / minCell))
  { nx := nx, ny := ny, nz := nz
    cellSize := ⟨ds.x / (nx : α), ds.y / (ny : α), ds.z / (nz : α)⟩ }

/-- Clamp of one computed cell coordinate into `[0, n-1]`
(`neighbor_list.cpp` lines 45-47, `std::max(0, std::min(n - 1, i))`). -/
def coordClamp (n : ℤ) (t : ℤ) : ℤ := max 0 (min (n - 1) t)

/-- `NeighborList::get_cell_coords` (`neighbor_list.cpp` lines 36-48). -/
def cellCoords (cfg : NeighborListConfig α) (g : NLGrid α) (pos : Vec3 α) :
    ℤ × ℤ × ℤ :=
  let rel := pos - cfg.domain_min
  ( coordClamp g.nx (truncToInt (rel.x / g.cellSize.x))
  , coordClamp g.ny (truncToInt (rel.y / g.cellSize.y))
  , coordClamp g.nz (truncToInt (rel.z / g.cellSize.z)) )

/-- The per-cell particle lists after the assignment loop of
`NeighborList::build` (`neighbor_list.cpp` lines 66-69): particle `i` is
appended to the cell of `positions[i]`, in increasing `i`.  Cells are keyed by
their coordinate triple; the flat index `ix + nx*(iy + ny*iz)` used by the
source is injective on in-range triples. -/
def cellsMap (cfg : NeighborListConfig α) (g : NLGrid α)
    (positions : List (Vec3 α)) : ℤ × ℤ × ℤ → List ℕ :=
  (List.range positions.length).foldl
    (fun m i c =>
      if c = cellCoords cfg g (positions.getD i Vec3.zero) then m c ++ [i]
      else m c)
    (fun _ => [])

/-- The 13-offset half shell enumerated by the `dz/dy/dx` loops of
`NeighborList::build_pairs` (`neighbor_list.cpp` lines 113-120), with the
self cell and the lower half shell skipped; offsets are `(dx, dy, dz)` in
source iteration order (`dz` outer, then `dy`, then `dx`). -/
def shellOffsets : List (ℤ × ℤ × ℤ) :=
  ([0, 1] : List ℤ).flatMap fun dz =>
    ([-1, 0, 1] : List ℤ).flatMap fun dy =>
      ([-1, 0, 1] : List ℤ).filterMap fun dx =>
        if dz = 0 ∧ dy = 0 ∧ dx = 0 then none
        else if dz = 0 ∧ (dy < 0 ∨ (dy = 0 ∧ dx < 0)) then none
        else some (dx, dy, dz)

theorem shellOffsets_eq :
    shellOffsets = [(1, 0, 0), (-1, 1, 0), (0, 1, 0), (1, 1, 0),
      (-1, -1, 1), (0, -1, 1), (1, -1, 1), (-1, 0, 1), (0, 0, 1), (1, 0, 1),
      (-1, 1, 1), (0, 1, 1), (1, 1, 1)] := by decide

/-- Ordered pairs `(l[a], l[b])` with `a < b`, in the order of the
intra-cell double loop of `build_pairs` (`neighbor_list.cpp` lines 98-110). -/
def listPairs {β : Type} : List β → List (β × β)
  | [] => []
  | x :: xs => (xs.map fun y => (x, y)) ++ listPairs xs

/-- Squared separation of particles `i` and `j` at the build snapshot
(`rij = positions[j] - positions[i]; r2 = rij.norm2()`). -/
def dist2 (positions : List (Vec3 α)) (i j : ℕ) : α :=
  Vec3.norm2 (positions.getD j Vec3.zero - positions.getD i Vec3.zero)

/-- Whether a candidate pair is recorded: `r2 < r_list_sq`
(`neighbor_list.cpp` lines 106 and 140). -/
def closePair (cfg : NeighborListConfig α) (positions : List (Vec3 α))
    (p : ℕ × ℕ) : Bool :=
  dist2 positions p.1 p.2 <
    (cfg.cutoff + cfg.skin) * (cfg.cutoff + cfg.skin)

/-- Cross-cell candidate enumeration of `build_pairs` (lines 135-144):
every `i` of the home cell against every `j` of the neighbor cell. -/
def crossPairs (cfg : NeighborListConfig α) (positions : List (Vec3 α))
    (here there : List ℕ) : List (ℕ × ℕ) :=
  (here.flatMap fun i => there.map fun j => (i, j)).filter
    (closePair cfg positions)

/-- Pairs contributed by one grid cell: the intra-cell pairs, then for each
half-shell offset whose target cell lies inside the grid, the cross pairs
(`build_pairs`, lines 96-147). -/
def cellBlock (cfg : NeighborListConfig α) (g : NLGrid α)
    (positions : List (Vec3 α)) (cells : ℤ × ℤ × ℤ → List ℕ)
    (c : ℤ × ℤ × ℤ) : List (ℕ × ℕ) :=
  (listPairs (cells c)).filter (closePair cfg positions) ++
    (shellOffsets.filter fun d =>
        decide (0 ≤ c.1 + d.1) && decide (c.1 + d.1 < g.nx) &&
        decide (0 ≤ c.2.1 + d.2.1) && decide (c.2.1 + d.2.1 < g.ny) &&
        decide (0 ≤ c.2.2 + d.2.2) && decide (c.2.2 + d.2.2 < g.nz)).flatMap
      fun d =>
        crossPairs cfg positions (cells c)
          (cells (c.1 + d.1, c.2.1 + d.2.1, c.2.2 + d.2.2))

/-- Nonnegative integers `0, 1, ..., n-1` as `ℤ`, for the cell loops. -/
def intRange (n : ℤ) : List ℤ := (List.range n.toNat).map fun k : ℕ => (k : ℤ)

/-- All cell coordinates in the iteration order of `build_pairs`
(lines 91-93: `iz` outer, then `iy`, then `ix`). -/
def allCellCoords (g : NLGrid α) : List (ℤ × ℤ × ℤ) :=
  (intRange g.nz).flatMap fun iz =>
    (intRange g.ny).flatMap fun iy =>
      (intRange g.nx).map fun ix => (ix, iy, iz)

/-- `NeighborList::build_pairs` (`neighbor_list.cpp` lines 87-151): the full
pair list for a build snapshot. -/
def buildPairs (cfg : NeighborListConfig α) (positions : List (Vec3 α)) :
    List (ℕ × ℕ) :=
  let g := setupGrid cfg
  let cells := cellsMap cfg g positions
  (allCellCoords g).flatMap (cellBlock cfg g positions cells)

/-! ### Characterization of the cell assignment and of the pair enumeration -/

/-- Predicate form of the cell test used throughout. -/
def inCell (cfg : NeighborListConfig α) (g : NLGrid α)
    (positions : List (Vec3 α)) (c : ℤ × ℤ × ℤ) (i : ℕ) : Bool :=
  decide (cellCoords cfg g (positions.getD i Vec3.zero) = c)

theorem foldl_append_filter {f : ℕ → ℤ × ℤ × ℤ} (l : List ℕ)
    (m : ℤ × ℤ × ℤ → List ℕ) (c : ℤ × ℤ × ℤ) :
    (l.foldl (fun m i c => if c = f i then m c ++ [i] else m c) m) c
      = m c ++ l.filter (fun i => decide (f i = c)) := by
  induction l generalizing m with
  | nil => simp
  | cons a l ih =>
    rw [List.foldl_cons, ih, List.filter_cons]
    show (if c = f a then m c ++ [a] else m c) ++ _ = _
    by_cases h : f a = c
    · rw [if_pos h.symm]
      simp [h, List.append_assoc]
    · rw [if_neg (fun hc => h hc.symm)]
      simp [h]

theorem cellsMap_eq_filter (cfg : NeighborListConfig α) (g : NLGrid α)
    (positions : List (Vec3 α)) (c : ℤ × ℤ × ℤ) :
    cellsMap cfg g positions c =
      (List.range positions.length).filter (inCell cfg g positions c) := by
  unfold cellsMap
  rw [@foldl_append_filter
    (fun i => cellCoords cfg g (positions.getD i Vec3.zero))
    (List.range positions.length) (fun _ => []) c]
  rfl

theorem mem_cellsMap (cfg : NeighborListConfig α) (g : NLGrid α)
    (positions : List (Vec3 α)) (c : ℤ × ℤ × ℤ) (i : ℕ) :
    i ∈ cellsMap cfg g positions c ↔
      i < positions.length ∧
        cellCoords cfg g (positions.getD i Vec3.zero) = c := by
  rw [cellsMap_eq_filter]
  simp [inCell, List.mem_filter]

theorem cellsMap_sorted (cfg : NeighborListConfig α) (g : NLGrid α)
    (positions : List (Vec3 α)) (c : ℤ × ℤ × ℤ) :
    (cellsMap cfg g positions c).Pairwise (· < ·) := by
  rw [cellsMap_eq_filter]
  exact (List.pairwise_lt_range _).sublist (List.filter_sublist _)

theorem cellsMap_nodup (cfg : NeighborListConfig α) (g : NLGrid α)
    (positions : List (Vec3 α)) (c : ℤ × ℤ × ℤ) :
    (cellsMap cfg g positions c).Nodup :=
  (cellsMap_sorted cfg g positions c).imp ne_of_lt

theorem mem_listPairs {β : Type} {l : List β} {p : β × β}
    (h : p ∈ listPairs l) :
    ∃ l₁ l₂ l₃, l = l₁ ++ p.1 :: l₂ ++ p.2 :: l₃ := by
  induction l with
  | nil => simp [listPairs] at h
  | cons x xs ih =>
    simp only [listPairs, List.mem_append, List.mem_map] at h
    rcases h with ⟨y, hy, hp⟩ | h
    · rcases List.append_of_mem hy with ⟨l₂, l₃, rfl⟩
      exact ⟨[], l₂, l₃, by simp [← hp]⟩
    · rcases ih h with ⟨l₁, l₂, l₃, rfl⟩
      exact ⟨x :: l₁, l₂, l₃, by simp⟩

theorem listPairs_mem_mem {β : Type} {l : List β} {p : β × β}
    (h : p ∈ listPairs l) : p.1 ∈ l ∧ p.2 ∈ l := by
  rcases mem_listPairs h with ⟨l₁, l₂, l₃, rfl⟩
  constructor <;> simp

theorem listPairs_lt {l : List ℕ} (hs : l.Pairwise (· < ·)) {p : ℕ × ℕ}
    (h : p ∈ listPairs l) : p.1 < p.2 := by
  rcases mem_listPairs h with ⟨l₁, l₂, l₃, rfl⟩
  have h1 : List.Sublist [p.1] (l₁ ++ p.1 :: l₂) :=
    (List.cons_sublist_cons.mpr (List.nil_sublist l₂)).trans
      (List.sublist_append_right l₁ (p.1 :: l₂))
  have h2 : List.Sublist [p.2] (p.2 :: l₃) :=
    List.cons_sublist_cons.mpr (List.nil_sublist l₃)
  have hp : ([p.1, p.2] : List ℕ).Pairwise (· < ·) :=
    hs.sublist (h1.append h2)
  exact (List.pairwise_cons.mp hp).1 p.2 (List.mem_cons_self _ _)

theorem listPairs_complete {l : List ℕ} (hs : l.Pairwise (· < ·))
    {i j : ℕ} (hi : i ∈ l) (hj : j ∈ l) (hij : i < j) :
    (i, j) ∈ listPairs l := by
  induction l with
  | nil => simp at hi
  | cons x xs ih =>
    have hx : ∀ b ∈ xs, x < b := (List.pairwise_cons.mp hs).1
    simp only [List.mem_cons] at hi hj
    simp only [listPairs, List.mem_append, List.mem_map]
    rcases hi with rfl | hi
    · rcases hj with rfl | hj
      · omega
      · exact Or.inl ⟨j, hj, rfl⟩
    · rcases hj with rfl | hj
      · exact absurd (hx i hi) (by omega)
      · exact Or.inr (ih (List.Pairwise.of_cons hs) hi hj)

theorem listPairs_nodup {β : Type} {l : List β} (h : l.Nodup) :
    (listPairs l).Nodup := by
  induction l with
  | nil => simp [listPairs]
  | cons x xs ih =>
    simp only [listPairs]
    have hx : x ∉ xs := (List.nodup_cons.mp h).1
    refine List.Nodup.append ?_ (ih (List.nodup_cons.mp h).2) ?_
    · exact (List.nodup_cons.mp h).2.map (fun a b hab => by
        simpa using congrArg Prod.snd hab)
    · intro p hp hq
      rcases List.mem_map.mp hp with ⟨y, _, rfl⟩
      have := (listPairs_mem_mem hq).1
      exact hx this

theorem mem_crossPairs (cfg : NeighborListConfig α)
    (positions : List (Vec3 α)) (here there : List ℕ) (p : ℕ × ℕ) :
    p ∈ crossPairs cfg positions here there ↔
      p.1 ∈ here ∧ p.2 ∈ there ∧ closePair cfg positions p = true := by
  unfold crossPairs
  rcases p with ⟨i, j⟩
  simp only [List.mem_filter, List.mem_flatMap, List.mem_map]
  constructor
  · rintro ⟨⟨a, ha, b, hb, hab⟩, hc⟩
    cases hab
    exact ⟨ha, hb, hc⟩
  · rintro ⟨hi, hj, hc⟩
    exact ⟨⟨i, hi, j, hj, rfl⟩, hc⟩

theorem crossPairs_nodup (cfg : NeighborListConfig α)
    (positions : List (Vec3 α)) {here there : List ℕ}
    (h₁ : here.Nodup) (h₂ : there.Nodup) :
    (crossPairs cfg positions here there).Nodup := by
  apply List.Nodup.filter
  rw [show (here.flatMap fun i => there.map fun j => (i, j)) =
      here.product there from rfl]
  exact h₁.product h₂

theorem mem_intRange {n z : ℤ} : z ∈ intRange n ↔ 0 ≤ z ∧ z < n := by
  unfold intRange
  simp only [List.mem_map, List.mem_range]
  constructor
  · rintro ⟨k, hk, rfl⟩
    constructor <;> omega
  · rintro ⟨hz, hn⟩
    exact ⟨z.toNat, by omega, by omega⟩

theorem intRange_nodup (n : ℤ) : (intRange n).Nodup :=
  (List.nodup_range _).map fun a b h => by omega

theorem mem_allCellCoords (g : NLGrid α) (c : ℤ × ℤ × ℤ) :
    c ∈ allCellCoords g ↔
      (0 ≤ c.1 ∧ c.1 < g.nx) ∧ (0 ≤ c.2.1 ∧ c.2.1 < g.ny) ∧
        (0 ≤ c.2.2 ∧ c.2.2 < g.nz) := by
  unfold allCellCoords
  rcases c with ⟨ix, iy, iz⟩
  simp only [List.mem_flatMap, List.mem_map]
  constructor
  · rintro ⟨z, hz, y, hy, x, hx, h⟩
    obtain ⟨rfl, rfl, rfl⟩ : x = ix ∧ y = iy ∧ z = iz := by
      rw [Prod.ext_iff, Prod.ext_iff] at h
      exact ⟨h.1, h.2.1, h.2.2⟩
    exact ⟨mem_intRange.mp hx, mem_intRange.mp hy, mem_intRange.mp hz⟩
  · rintro ⟨hx, hy, hz⟩
    exact ⟨iz, mem_intRange.mpr hz, iy, mem_intRange.mpr hy, ix,
      mem_intRange.mpr hx, rfl⟩

theorem allCellCoords_nodup (g : NLGrid α) : (allCellCoords g).Nodup := by
  unfold allCellCoords
  rw [List.nodup_flatMap]
  refine ⟨fun z _ => ?_, ?_⟩
  · rw [List.nodup_flatMap]
    refine ⟨fun y _ => (intRange_nodup _).map fun a b h => ?_, ?_⟩
    · rw [Prod.ext_iff] at h
      exact h.1
    · refine (intRange_nodup _).imp ?_
      intro a b hab
      simp only [Function.onFun, List.disjoint_left, List.mem_map]
      rintro c ⟨x, _, rfl⟩ ⟨x', _, h⟩
      rw [Prod.ext_iff, Prod.ext_iff] at h
      exact hab h.2.1.symm
  · refine (intRange_nodup _).imp ?_
    intro a b hab
    simp only [Function.onFun, List.disjoint_left, List.mem_flatMap,
      List.mem_map]
    rintro c ⟨y, _, x, _, rfl⟩ ⟨y', _, x', _, h⟩
    rw [Prod.ext_iff, Prod.ext_iff] at h
    exact hab h.2.2.symm

/-! ### Counting helpers -/

theorem countP_flatMap {β γ : Type} (l : List β) (f : β → List γ)
    (q : γ → Bool) :
    ((l.flatMap f).countP q) = (l.map fun a => (f a).countP q).sum := by
  induction l with
  | nil => simp
  | cons a l ih => simp [List.flatMap_cons, List.countP_append, ih]

theorem countP_le_one_pair {β : Type} [DecidableEq β] :
    ∀ {l : List β}, l.Nodup → ∀ {a b : β}, ¬(a ∈ l ∧ b ∈ l) →
      l.countP (fun p => decide (p = a) || decide (p = b)) ≤ 1 := by
  intro l
  induction l with
  | nil => intro _ a b _; simp
  | cons x xs ih =>
    intro hnd a b hab
    have hx : x ∉ xs := (List.nodup_cons.mp hnd).1
    have hnd' : xs.Nodup := (List.nodup_cons.mp hnd).2
    rw [List.countP_cons]
    by_cases hxa : x = a
    · subst hxa
      have hb : b ∉ xs := fun hbxs =>
        hab ⟨List.mem_cons_self _ _, List.mem_cons_of_mem _ hbxs⟩
      have h0 : xs.countP (fun p => decide (p = x) || decide (p = b)) = 0 := by
        rw [List.countP_eq_zero]
        intro p hp hcon
        simp only [Bool.or_eq_true, decide_eq_true_eq] at hcon
        rcases hcon with rfl | rfl
        · exact hx hp
        · exact hb hp
      simp [h0]
    · by_cases hxb : x = b
      · subst hxb
        have ha : a ∉ xs := fun haxs =>
          hab ⟨List.mem_cons_of_mem _ haxs, List.mem_cons_self _ _⟩
        have h0 : xs.countP (fun p => decide (p = a) || decide (p = x)) = 0 := by
          rw [List.countP_eq_zero]
          intro p hp hcon
          simp only [Bool.or_eq_true, decide_eq_true_eq] at hcon
          rcases hcon with rfl | rfl
          · exact ha hp
          · exact hx hp
        simp [h0]
      · have hrec := @ih hnd' a b (fun ⟨ha, hb⟩ =>
          hab ⟨List.mem_cons_of_mem _ ha, List.mem_cons_of_mem _ hb⟩)
        have hhead : (decide (x = a) || decide (x = b)) = false := by
          simp [hxa, hxb]
        rw [hhead]
        simpa using hrec

theorem sum_indicator_le_one {β : Type} [DecidableEq β] (f : β → ℕ) (b₀ : β) :
    ∀ (l : List β), l.Nodup →
      (∀ b ∈ l, f b ≤ if b = b₀ then 1 else 0) → (l.map f).sum ≤ 1 := by
  intro l
  induction l with
  | nil => intro _ _; simp
  | cons x xs ih =>
    intro hl hf
    simp only [List.map_cons, List.sum_cons]
    have hx : x ∉ xs := (List.nodup_cons.mp hl).1
    by_cases hxb : x = b₀
    · subst hxb
      have hzero : ∀ b ∈ xs, f b = 0 := by
        intro b hb
        have hb' := hf b (List.mem_cons_of_mem _ hb)
        have hbne : b ≠ x := fun hbx => hx (hbx ▸ hb)
        rw [if_neg hbne] at hb'
        omega
      have hsum : (xs.map f).sum = 0 := by
        apply List.sum_eq_zero
        intro y hy
        rcases List.mem_map.mp hy with ⟨b, hb, rfl⟩
        exact hzero b hb
      have hfx := hf x (List.mem_cons_self _ _)
      rw [if_pos rfl] at hfx
      omega
    · have hfx := hf x (List.mem_cons_self _ _)
      rw [if_neg hxb] at hfx
      have hrec := ih (List.nodup_cons.mp hl).2
        (fun b hb => hf b (List.mem_cons_of_mem _ hb))
      omega

/-! ### Soundness of the pair list -/

/-- Facts about the half shell, checked by computation. -/
theorem shell_ne_zero :
    ∀ d ∈ shellOffsets, ¬(d.1 = 0 ∧ d.2.1 = 0 ∧ d.2.2 = 0) := by decide

theorem shell_asymm :
    ∀ d ∈ shellOffsets, (-d.1, -d.2.1, -d.2.2) ∉ shellOffsets := by decide

theorem shell_nodup : shellOffsets.Nodup := by decide

theorem shell_cover {dx dy dz : ℤ}
    (hx1 : -1 ≤ dx) (hx2 : dx ≤ 1) (hy1 : -1 ≤ dy) (hy2 : dy ≤ 1)
    (hz1 : -1 ≤ dz) (hz2 : dz ≤ 1) (hne : ¬(dx = 0 ∧ dy = 0 ∧ dz = 0)) :
    (dx, dy, dz) ∈ shellOffsets ∨ (-dx, -dy, -dz) ∈ shellOffsets := by
  have hdx : dx = -1 ∨ dx = 0 ∨ dx = 1 := by omega
  have hdy : dy = -1 ∨ dy = 0 ∨ dy = 1 := by omega
  have hdz : dz = -1 ∨ dz = 0 ∨ dz = 1 := by omega
  rcases hdx with rfl | rfl | rfl <;> rcases hdy with rfl | rfl | rfl <;>
    rcases hdz with rfl | rfl | rfl <;>
      first
        | (left; decide)
        | (right; decide)
        | (simp at hne)

theorem mem_cellBlock (cfg : NeighborListConfig α) (g : NLGrid α)
    (positions : List (Vec3 α)) (cells : ℤ × ℤ × ℤ → List ℕ)
    (c : ℤ × ℤ × ℤ) (p : ℕ × ℕ) :
    p ∈ cellBlock cfg g positions cells c ↔
      (p ∈ (listPairs (cells c)).filter (closePair cfg positions) ∨
        ∃ d ∈ shellOffsets.filter fun d =>
            decide (0 ≤ c.1 + d.1) && decide (c.1 + d.1 < g.nx) &&
            decide (0 ≤ c.2.1 + d.2.1) && decide (c.2.1 + d.2.1 < g.ny) &&
            decide (0 ≤ c.2.2 + d.2.2) && decide (c.2.2 + d.2.2 < g.nz),
          p ∈ crossPairs cfg positions (cells c)
            (cells (c.1 + d.1, c.2.1 + d.2.1, c.2.2 + d.2.2))) := by
  unfold cellBlock
  simp [List.mem_append, List.mem_flatMap]

/-- Every recorded pair has in-range, distinct indices and squared
separation strictly below `(cutoff + skin)^2` at the build snapshot. -/
theorem buildPairs_sound (cfg : NeighborListConfig α)
    (positions : List (Vec3 α)) {p : ℕ × ℕ}
    (hp : p ∈ buildPairs cfg positions) :
    p.1 < positions.length ∧ p.2 < positions.length ∧ p.1 ≠ p.2 ∧
      dist2 positions p.1 p.2 <
        (cfg.cutoff + cfg.skin) * (cfg.cutoff + cfg.skin) := by
  unfold buildPairs at hp
  rcases List.mem_flatMap.mp hp with ⟨c, _, hblock⟩
  rcases (mem_cellBlock _ _ _ _ _ _).mp hblock with hintra | ⟨d, hd, hcross⟩
  · rcases List.mem_filter.mp hintra with ⟨hmem, hclose⟩
    have h1 := (mem_cellsMap cfg _ positions c p.1).mp (listPairs_mem_mem hmem).1
    have h2 := (mem_cellsMap cfg _ positions c p.2).mp (listPairs_mem_mem hmem).2
    have hlt := listPairs_lt (cellsMap_sorted cfg _ positions c) hmem
    refine ⟨h1.1, h2.1, by omega, ?_⟩
    simpa [closePair, decide_eq_true_eq] using hclose
  · rcases (mem_crossPairs cfg positions _ _ p).mp hcross with ⟨hi, hj, hclose⟩
    have h1 := (mem_cellsMap cfg _ positions c p.1).mp hi
    have h2 := (mem_cellsMap cfg _ positions _ p.2).mp hj
    have hdm : d ∈ shellOffsets := (List.mem_filter.mp hd).1
    refine ⟨h1.1, h2.1, ?_, ?_⟩
    · intro hEq
      have h12 : cellCoords cfg (setupGrid cfg)
          (positions.getD p.1 Vec3.zero) =
          cellCoords cfg (setupGrid cfg) (positions.getD p.2 Vec3.zero) := by
        rw [hEq]
      have hcc : c = (c.1 + d.1, c.2.1 + d.2.1, c.2.2 + d.2.2) :=
        h1.2.symm.trans (h12.trans h2.2)
      have : d.1 = 0 ∧ d.2.1 = 0 ∧ d.2.2 = 0 := by
        have e1 := congrArg (fun t : ℤ × ℤ × ℤ => t.1) hcc
        have e2 := congrArg (fun t : ℤ × ℤ × ℤ => t.2.1) hcc
        have e3 := congrArg (fun t : ℤ × ℤ × ℤ => t.2.2) hcc
        dsimp only at e1 e2 e3
        omega
      exact shell_ne_zero d hdm this
    · simpa [closePair, decide_eq_true_eq] using hclose

/-! ### No unordered pair is recorded twice -/

/-- Test for either orientation of one unordered index pair. -/
def hits (i j : ℕ) (p : ℕ × ℕ) : Bool :=
  decide (p = (i, j)) || decide (p = (j, i))

/-- Componentwise difference of two cell coordinates. -/
def pairDelta (a b : ℤ × ℤ × ℤ) : ℤ × ℤ × ℤ :=
  (b.1 - a.1, b.2.1 - a.2.1, b.2.2 - a.2.2)

theorem triple_eq_iff {a b : ℤ × ℤ × ℤ} :
    a = b ↔ a.1 = b.1 ∧ a.2.1 = b.2.1 ∧ a.2.2 = b.2.2 := by
  rcases a with ⟨a1, a2, a3⟩
  rcases b with ⟨b1, b2, b3⟩
  simp [Prod.ext_iff]

/-- The unique cell whose block can record the unordered pair consisting of
particles `i` and `j`. -/
def homeCell (cfg : NeighborListConfig α) (g : NLGrid α)
    (positions : List (Vec3 α)) (i j : ℕ) : ℤ × ℤ × ℤ :=
  let ci := cellCoords cfg g (positions.getD i Vec3.zero)
  let cj := cellCoords cfg g (positions.getD j Vec3.zero)
  if ci = cj then ci
  else if pairDelta ci cj ∈ shellOffsets then ci else cj

theorem intra_count_bound (cfg : NeighborListConfig α) (g : NLGrid α)
    (positions : List (Vec3 α)) (i j : ℕ) (c : ℤ × ℤ × ℤ) :
    ((listPairs (cellsMap cfg g positions c)).filter
        (closePair cfg positions)).countP (hits i j) ≤
      if cellCoords cfg g (positions.getD i Vec3.zero) = c ∧
          cellCoords cfg g (positions.getD j Vec3.zero) = c
        then 1 else 0 := by
  by_cases hc : cellCoords cfg g (positions.getD i Vec3.zero) = c ∧
      cellCoords cfg g (positions.getD j Vec3.zero) = c
  · rw [if_pos hc]
    have hnd : ((listPairs (cellsMap cfg g positions c)).filter
        (closePair cfg positions)).Nodup :=
      (listPairs_nodup (cellsMap_nodup cfg g positions c)).filter _
    unfold hits
    apply countP_le_one_pair hnd
    rintro ⟨hij1, hij2⟩
    have l1 := listPairs_lt (cellsMap_sorted cfg g positions c)
      (List.mem_filter.mp hij1).1
    have l2 := listPairs_lt (cellsMap_sorted cfg g positions c)
      (List.mem_filter.mp hij2).1
    dsimp only at l1 l2
    omega
  · rw [if_neg hc, Nat.le_zero, List.countP_eq_zero]
    intro p hp hhit
    have hm := (List.mem_filter.mp hp).1
    have c1 := (mem_cellsMap cfg g positions c p.1).mp
      (listPairs_mem_mem hm).1
    have c2 := (mem_cellsMap cfg g positions c p.2).mp
      (listPairs_mem_mem hm).2
    simp only [hits, Bool.or_eq_true, decide_eq_true_eq] at hhit
    rcases hhit with rfl | rfl
    · exact hc ⟨c1.2, c2.2⟩
    · exact hc ⟨c2.2, c1.2⟩

theorem cross_hit_cells (cfg : NeighborListConfig α) (g : NLGrid α)
    (positions : List (Vec3 α)) {i j : ℕ} {c X : ℤ × ℤ × ℤ} {p : ℕ × ℕ}
    (hp : p ∈ crossPairs cfg positions (cellsMap cfg g positions c)
      (cellsMap cfg g positions X))
    (hhit : hits i j p = true) :
    (p = (i, j) ∧ cellCoords cfg g (positions.getD i Vec3.zero) = c ∧
        cellCoords cfg g (positions.getD j Vec3.zero) = X) ∨
      (p = (j, i) ∧ cellCoords cfg g (positions.getD j Vec3.zero) = c ∧
        cellCoords cfg g (positions.getD i Vec3.zero) = X) := by
  rcases (mem_crossPairs cfg positions _ _ p).mp hp with ⟨h1, h2, -⟩
  have d1 := (mem_cellsMap cfg g positions c p.1).mp h1
  have d2 := (mem_cellsMap cfg g positions X p.2).mp h2
  simp only [hits, Bool.or_eq_true, decide_eq_true_eq] at hhit
  rcases hhit with rfl | rfl
  · exact Or.inl ⟨rfl, d1.2, d2.2⟩
  · exact Or.inr ⟨rfl, d1.2, d2.2⟩

theorem delta_eq_of {A B c d : ℤ × ℤ × ℤ} (hc1 : A = c)
    (hc2 : B = (c.1 + d.1, c.2.1 + d.2.1, c.2.2 + d.2.2)) :
    d = pairDelta A B := by
  rcases triple_eq_iff.mp hc1 with ⟨a1, a2, a3⟩
  rcases triple_eq_iff.mp hc2 with ⟨b1, b2, b3⟩
  dsimp only at b1 b2 b3
  refine triple_eq_iff.mpr ?_
  unfold pairDelta
  refine ⟨?_, ?_, ?_⟩ <;> dsimp only <;> omega

theorem pairDelta_swap_mem {A B : ℤ × ℤ × ℤ}
    (h : pairDelta B A ∈ shellOffsets) : pairDelta A B ∉ shellOffsets := by
  have := shell_asymm _ h
  have heq : pairDelta A B =
      (-(pairDelta B A).1, -(pairDelta B A).2.1, -(pairDelta B A).2.2) := by
    refine triple_eq_iff.mpr ?_
    unfold pairDelta
    refine ⟨?_, ?_, ?_⟩ <;> dsimp only <;> ring
  rw [heq]
  exact this

theorem pairDelta_self_zero {A B : ℤ × ℤ × ℤ} (h : A = B) (d : ℤ × ℤ × ℤ)
    (hd : d = pairDelta A B) : d.1 = 0 ∧ d.2.1 = 0 ∧ d.2.2 = 0 := by
  subst h
  rcases triple_eq_iff.mp hd with ⟨f1, f2, f3⟩
  unfold pairDelta at f1 f2 f3
  dsimp only at f1 f2 f3
  omega

theorem cellBlock_count_bound (cfg : NeighborListConfig α) (g : NLGrid α)
    (positions : List (Vec3 α)) (i j : ℕ) (hij : i ≠ j) (c : ℤ × ℤ × ℤ) :
    (cellBlock cfg g positions (cellsMap cfg g positions) c).countP
        (hits i j) ≤
      if c = homeCell cfg g positions i j then 1 else 0 := by
  set ci := cellCoords cfg g (positions.getD i Vec3.zero) with hci
  set cj := cellCoords cfg g (positions.getD j Vec3.zero) with hcj
  unfold cellBlock
  rw [List.countP_append, countP_flatMap]
  have hintra := intra_count_bound cfg g positions i j c
  rw [← hci, ← hcj] at hintra
  -- A hit in the cross block for offset `d` forces `d` to be the coordinate
  -- difference of the two cells, in the orientation that matched.
  have hform : ∀ d ∈ shellOffsets, ∀ p,
      p ∈ crossPairs cfg positions (cellsMap cfg g positions c)
        (cellsMap cfg g positions
          (c.1 + d.1, c.2.1 + d.2.1, c.2.2 + d.2.2)) →
      hits i j p = true →
      (ci = c ∧ d = pairDelta ci cj) ∨ (cj = c ∧ d = pairDelta cj ci) := by
    intro d _ p hp hhit
    rcases cross_hit_cells cfg g positions hp hhit with
      ⟨-, e1, e2⟩ | ⟨-, e1, e2⟩
    · exact Or.inl ⟨e1, delta_eq_of e1 e2⟩
    · exact Or.inr ⟨e1, delta_eq_of e1 e2⟩
  by_cases hcc : ci = cj
  · -- One shared cell: every cross count vanishes.
    have hcross0 : ∀ d ∈ shellOffsets.filter fun d =>
        decide (0 ≤ c.1 + d.1) && decide (c.1 + d.1 < g.nx) &&
        decide (0 ≤ c.2.1 + d.2.1) && decide (c.2.1 + d.2.1 < g.ny) &&
        decide (0 ≤ c.2.2 + d.2.2) && decide (c.2.2 + d.2.2 < g.nz),
        (crossPairs cfg positions (cellsMap cfg g positions c)
          (cellsMap cfg g positions
            (c.1 + d.1, c.2.1 + d.2.1, c.2.2 + d.2.2))).countP (hits i j)
          = 0 := by
      intro d hd
      rw [List.countP_eq_zero]
      intro p hp hhit
      have hds : d ∈ shellOffsets := (List.mem_filter.mp hd).1
      rcases hform d hds p hp hhit with ⟨-, hdel⟩ | ⟨-, hdel⟩
      · exact shell_ne_zero d hds (pairDelta_self_zero hcc d hdel)
      · exact shell_ne_zero d hds (pairDelta_self_zero hcc.symm d hdel)
    have hsum : ((shellOffsets.filter fun d =>
        decide (0 ≤ c.1 + d.1) && decide (c.1 + d.1 < g.nx) &&
        decide (0 ≤ c.2.1 + d.2.1) && decide (c.2.1 + d.2.1 < g.ny) &&
        decide (0 ≤ c.2.2 + d.2.2) && decide (c.2.2 + d.2.2 < g.nz)).map
          fun d => (crossPairs cfg positions (cellsMap cfg g positions c)
            (cellsMap cfg g positions
              (c.1 + d.1, c.2.1 + d.2.1, c.2.2 + d.2.2))).countP
                (hits i j)).sum = 0 := by
      apply List.sum_eq_zero
      intro y hy
      rcases List.mem_map.mp hy with ⟨d, hd, rfl⟩
      exact hcross0 d hd
    rw [hsum]
    have hhome : homeCell cfg g positions i j = ci := by
      unfold homeCell
      rw [← hci, ← hcj, if_pos hcc]
    rw [hhome]
    by_cases hc : c = ci
    · rw [if_pos hc]
      have hcond : ci = c ∧ cj = c := ⟨hc.symm, hcc.symm.trans hc.symm⟩
      rw [if_pos hcond] at hintra
      omega
    · rw [if_neg hc]
      have hcond : ¬(ci = c ∧ cj = c) := fun h => hc h.1.symm
      rw [if_neg hcond] at hintra
      omega
  · -- Distinct cells: the intra count vanishes and at most one offset hits.
    have hintra0 : ((listPairs (cellsMap cfg g positions c)).filter
        (closePair cfg positions)).countP (hits i j) = 0 := by
      have hcond : ¬(ci = c ∧ cj = c) := fun h => hcc (h.1.trans h.2.symm)
      rw [if_neg hcond] at hintra
      omega
    rw [hintra0, Nat.zero_add]
    have hhome : homeCell cfg g positions i j =
        if pairDelta ci cj ∈ shellOffsets then ci else cj := by
      unfold homeCell
      rw [← hci, ← hcj, if_neg hcc]
    by_cases hc : c = homeCell cfg g positions i j
    · rw [if_pos hc]
      -- Sum over offsets: only the matching difference can contribute.
      set d₀ : ℤ × ℤ × ℤ :=
        if pairDelta ci cj ∈ shellOffsets then pairDelta ci cj
        else pairDelta cj ci with hd₀
      apply sum_indicator_le_one _ d₀ _
        ((shell_nodup).filter _)
      intro d hd
      by_cases hdd : d = d₀
      · rw [if_pos hdd]
        have hndc : (crossPairs cfg positions (cellsMap cfg g positions c)
            (cellsMap cfg g positions
              (c.1 + d.1, c.2.1 + d.2.1, c.2.2 + d.2.2))).Nodup :=
          crossPairs_nodup cfg positions (cellsMap_nodup cfg g positions c)
            (cellsMap_nodup cfg g positions _)
        unfold hits
        apply countP_le_one_pair hndc
        rintro ⟨hp1, hp2⟩
        have f1 := (mem_crossPairs cfg positions _ _ _).mp hp1
        have f2 := (mem_crossPairs cfg positions _ _ _).mp hp2
        have g1 := (mem_cellsMap cfg g positions c (i, j).1).mp f1.1
        have g2 := (mem_cellsMap cfg g positions c (j, i).1).mp f2.1
        dsimp only at g1 g2
        exact hcc ((hci ▸ g1.2).trans (hcj ▸ g2.2).symm)
      · rw [if_neg hdd, Nat.le_zero, List.countP_eq_zero]
        intro p hp hhit
        have hds : d ∈ shellOffsets := (List.mem_filter.mp hd).1
        rcases hform d hds p hp hhit with ⟨hcic, hdel⟩ | ⟨hcjc, hdel⟩
        · -- The pair matched as (i, j): the offset is the forward difference.
          have hshell : pairDelta ci cj ∈ shellOffsets := hdel ▸ hds
          rw [hhome, if_pos hshell] at hc
          exact hdd (by rw [hd₀, if_pos hshell, hdel])
        · -- The pair matched as (j, i): the offset is the backward difference.
          have hshell : pairDelta cj ci ∈ shellOffsets := hdel ▸ hds
          have hnot : pairDelta ci cj ∉ shellOffsets := pairDelta_swap_mem hshell
          rw [hhome, if_neg hnot] at hc
          exact hdd (by rw [hd₀, if_neg hnot, hdel])
    · rw [if_neg hc]
      have hzero : ∀ d ∈ shellOffsets.filter fun d =>
          decide (0 ≤ c.1 + d.1) && decide (c.1 + d.1 < g.nx) &&
          decide (0 ≤ c.2.1 + d.2.1) && decide (c.2.1 + d.2.1 < g.ny) &&
          decide (0 ≤ c.2.2 + d.2.2) && decide (c.2.2 + d.2.2 < g.nz),
          (crossPairs cfg positions (cellsMap cfg g positions c)
            (cellsMap cfg g positions
              (c.1 + d.1, c.2.1 + d.2.1, c.2.2 + d.2.2))).countP (hits i j)
            = 0 := by
        intro d hd
        rw [List.countP_eq_zero]
        intro p hp hhit
        have hds : d ∈ shellOffsets := (List.mem_filter.mp hd).1
        rcases hform d hds p hp hhit with ⟨hcic, hdel⟩ | ⟨hcjc, hdel⟩
        · have hshell : pairDelta ci cj ∈ shellOffsets := hdel ▸ hds
          exact hc (by rw [hhome, if_pos hshell, ← hcic])
        · have hshell : pairDelta cj ci ∈ shellOffsets := hdel ▸ hds
          have hnot : pairDelta ci cj ∉ shellOffsets :=
            pairDelta_swap_mem hshell
          exact hc (by rw [hhome, if_neg hnot, ← hcjc])
      have : ((shellOffsets.filter fun d =>
          decide (0 ≤ c.1 + d.1) && decide (c.1 + d.1 < g.nx) &&
          decide (0 ≤ c.2.1 + d.2.1) && decide (c.2.1 + d.2.1 < g.ny) &&
          decide (0 ≤ c.2.2 + d.2.2) && decide (c.2.2 + d.2.2 < g.nz)).map
            fun d => (crossPairs cfg positions (cellsMap cfg g positions c)
              (cellsMap cfg g positions
                (c.1 + d.1, c.2.1 + d.2.1, c.2.2 + d.2.2))).countP
                  (hits i j)).sum = 0 := by
        apply List.sum_eq_zero
        intro y hy
        rcases List.mem_map.mp hy with ⟨d, hd, rfl⟩
        exact hzero d hd
      omega

/-- No unordered pair of indices is recorded twice by one build. -/
theorem buildPairs_count_le_one (cfg : NeighborListConfig α)
    (positions : List (Vec3 α)) (i j : ℕ) :
    (buildPairs cfg positions).countP (hits i j) ≤ 1 := by
  by_cases hij : i = j
  · subst hij
    have h0 : (buildPairs cfg positions).countP (hits i i) = 0 := by
      rw [List.countP_eq_zero]
      intro p hp hhit
      have hs := buildPairs_sound cfg positions hp
      simp only [hits, Bool.or_eq_true, decide_eq_true_eq, or_self] at hhit
      rw [hhit] at hs
      exact hs.2.2.1 rfl
    omega
  · show ((allCellCoords (setupGrid cfg)).flatMap
      (cellBlock cfg (setupGrid cfg) positions
        (cellsMap cfg (setupGrid cfg) positions))).countP (hits i j) ≤ 1
    rw [countP_flatMap]
    exact sum_indicator_le_one _ (homeCell cfg (setupGrid cfg) positions i j)
      _ (allCellCoords_nodup _)
      (fun c _ => cellBlock_count_bound cfg (setupGrid cfg) positions i j hij c)

/-! ### Completeness of the pair list -/

theorem abs_lt_of_mul_self_lt {a b : α} (hb : 0 ≤ b) (h : a * a < b * b) :
    |a| < b := by
  by_contra hcon
  push_neg at hcon
  have h1 : |a| * |a| ≥ b * b :=
    mul_le_mul hcon hcon hb (abs_nonneg a)
  rw [abs_mul_abs_self] at h1
  linarith

theorem coordClamp_nonneg (n t : ℤ) : 0 ≤ coordClamp n t := by
  unfold coordClamp; omega

theorem coordClamp_lt (n t : ℤ) (hn : 1 ≤ n) : coordClamp n t < n := by
  unfold coordClamp; omega

theorem coordClamp_one (t : ℤ) : coordClamp 1 t = 0 := by
  unfold coordClamp; omega

theorem setupGrid_nx (cfg : NeighborListConfig α) :
    (setupGrid cfg).nx = max 1 (truncToInt
      ((cfg.domain_max - cfg.domain_min).x /
        ((cfg.cutoff + cfg.skin) * cfg.cell_size_factor))) := rfl

theorem setupGrid_ny (cfg : NeighborListConfig α) :
    (setupGrid cfg).ny = max 1 (truncToInt
      ((cfg.domain_max - cfg.domain_min).y /
        ((cfg.cutoff + cfg.skin) * cfg.cell_size_factor))) := rfl

theorem setupGrid_nz (cfg : NeighborListConfig α) :
    (setupGrid cfg).nz = max 1 (truncToInt
      ((cfg.domain_max - cfg.domain_min).z /
        ((cfg.cutoff + cfg.skin) * cfg.cell_size_factor))) := rfl

theorem setupGrid_cellSize_x (cfg : NeighborListConfig α) :
    (setupGrid cfg).cellSize.x =
      (cfg.domain_max - cfg.domain_min).x / (((setupGrid cfg).nx : ℤ) : α) :=
  rfl

theorem setupGrid_cellSize_y (cfg : NeighborListConfig α) :
    (setupGrid cfg).cellSize.y =
      (cfg.domain_max - cfg.domain_min).y / (((setupGrid cfg).ny : ℤ) : α) :=
  rfl

theorem setupGrid_cellSize_z (cfg : NeighborListConfig α) :
    (setupGrid cfg).cellSize.z =
      (cfg.domain_max - cfg.domain_min).z / (((setupGrid cfg).nz : ℤ) : α) :=
  rfl

theorem setupGrid_nx_pos (cfg : NeighborListConfig α) :
    1 ≤ (setupGrid cfg).nx := by rw [setupGrid_nx]; omega

theorem setupGrid_ny_pos (cfg : NeighborListConfig α) :
    1 ≤ (setupGrid cfg).ny := by rw [setupGrid_ny]; omega

theorem setupGrid_nz_pos (cfg : NeighborListConfig α) :
    1 ≤ (setupGrid cfg).nz := by rw [setupGrid_nz]; omega

/-- Per-axis grid sizing: either the axis has a single cell, or the actual
cell edge is at least the requested minimum cell size. -/
theorem axis_cell_ge (extent minCell : α) (hx : 0 < extent)
    (hmc : 0 < minCell) :
    max 1 (truncToInt (extent / minCell)) = 1 ∨
      minCell ≤ extent / ((max 1 (truncToInt (extent / minCell)) : ℤ) : α) := by
  have hr : 0 ≤ extent / minCell := le_of_lt (div_pos hx hmc)
  rw [truncToInt_of_nonneg hr]
  by_cases h1 : ⌊extent / minCell⌋ ≤ 1
  · left; omega
  · right
    have hmax : max 1 ⌊extent / minCell⌋ = ⌊extent / minCell⌋ := by omega
    rw [hmax]
    have htpos : (0 : α) < ((⌊extent / minCell⌋ : ℤ) : α) := by
      exact_mod_cast (by omega : (0 : ℤ) < ⌊extent / minCell⌋)
    rw [le_div_iff htpos]
    have hfl : ((⌊extent / minCell⌋ : ℤ) : α) ≤ extent / minCell :=
      Int.floor_le _
    calc minCell * ((⌊extent / minCell⌋ : ℤ) : α)
        ≤ minCell * (extent / minCell) :=
          mul_le_mul_of_nonneg_left hfl hmc.le
      _ = extent := by
          rw [mul_comm, div_mul_cancel₀ _ (ne_of_gt hmc)]

/-- The clamped coordinate as a closed formula when the cell edge is
positive. -/
theorem coordClamp_formula (n : ℤ) (hn : 1 ≤ n) {edge : α} (he : 0 < edge)
    (r : α) :
    coordClamp n (truncToInt (r / edge)) = min (n - 1) ⌊max 0 r / edge⌋ := by
  unfold coordClamp truncToInt
  by_cases hr : 0 ≤ r
  · rw [if_pos (div_nonneg hr he.le), max_eq_right hr]
    have h0 : 0 ≤ ⌊r / edge⌋ := Int.floor_nonneg.mpr (div_nonneg hr he.le)
    omega
  · push_neg at hr
    rw [if_neg (not_le.mpr (div_neg_of_neg_of_pos hr he)),
      max_eq_left hr.le]
    have hceil : ⌈r / edge⌉ ≤ 0 :=
      Int.ceil_le.mpr (by
        rw [Int.cast_zero]
        exact le_of_lt (div_neg_of_neg_of_pos hr he))
    have hfz : ⌊(0 : α) / edge⌋ = 0 := by
      rw [zero_div, Int.floor_zero]
    omega

/-- One-step Lipschitz bound for the clamped cell coordinate. -/
theorem clamp_diff_le_one (n : ℤ) (hn : 1 ≤ n) {edge : α} (he : 0 < edge)
    (dmin x y : α) (hxy : |x - y| ≤ edge) :
    (coordClamp n (truncToInt ((x - dmin) / edge)) -
      coordClamp n (truncToInt ((y - dmin) / edge))).natAbs ≤ 1 := by
  have key : ∀ a b : α, a ≤ b → b - a ≤ edge →
      min (n - 1) ⌊max 0 (a - dmin) / edge⌋ ≤
          min (n - 1) ⌊max 0 (b - dmin) / edge⌋ ∧
        min (n - 1) ⌊max 0 (b - dmin) / edge⌋ ≤
          min (n - 1) ⌊max 0 (a - dmin) / edge⌋ + 1 := by
    intro a b hab hstep
    constructor
    · have hm : max 0 (a - dmin) ≤ max 0 (b - dmin) :=
        max_le_max (le_refl 0) (by linarith)
      have hd : max 0 (a - dmin) / edge ≤ max 0 (b - dmin) / edge :=
        (div_le_div_iff_of_pos_right he).mpr hm
      have := Int.floor_le_floor hd
      omega
    · have hm : max 0 (b - dmin) ≤ max 0 (a - dmin) + edge := by
        apply max_le
        · have h1 : (0 : α) ≤ max 0 (a - dmin) := le_max_left 0 _
          linarith
        · have h1 : a - dmin ≤ max 0 (a - dmin) := le_max_right 0 _
          linarith
      have hd : max 0 (b - dmin) / edge ≤ max 0 (a - dmin) / edge + 1 := by
        have := (div_le_div_iff_of_pos_right he).mpr hm
        rw [add_div, div_self (ne_of_gt he)] at this
        exact this
      have hf : ⌊max 0 (b - dmin) / edge⌋ ≤
          ⌊max 0 (a - dmin) / edge⌋ + 1 := by
        have := Int.floor_le_floor hd
        rw [Int.floor_add_one] at this
        exact this
      omega
  rw [coordClamp_formula n hn he, coordClamp_formula n hn he]
  rcases le_total x y with hxy' | hxy'
  · have hstep : y - x ≤ edge := by
      rw [abs_sub_comm] at hxy
      exact le_trans (le_abs_self _) hxy
    have h1 := key x y hxy' hstep
    omega
  · have hstep : x - y ≤ edge := le_trans (le_abs_self _) hxy
    have h1 := key y x hxy' hstep
    omega

theorem cellCoords_x (cfg : NeighborListConfig α) (g : NLGrid α)
    (pos : Vec3 α) :
    (cellCoords cfg g pos).1 = coordClamp g.nx
      (truncToInt ((pos.x - cfg.domain_min.x) / g.cellSize.x)) := rfl

theorem cellCoords_y (cfg : NeighborListConfig α) (g : NLGrid α)
    (pos : Vec3 α) :
    (cellCoords cfg g pos).2.1 = coordClamp g.ny
      (truncToInt ((pos.y - cfg.domain_min.y) / g.cellSize.y)) := rfl

theorem cellCoords_z (cfg : NeighborListConfig α) (g : NLGrid α)
    (pos : Vec3 α) :
    (cellCoords cfg g pos).2.2 = coordClamp g.nz
      (truncToInt ((pos.z - cfg.domain_min.z) / g.cellSize.z)) := rfl

theorem cellCoords_range (cfg : NeighborListConfig α) (pos : Vec3 α) :
    (0 ≤ (cellCoords cfg (setupGrid cfg) pos).1 ∧
        (cellCoords cfg (setupGrid cfg) pos).1 < (setupGrid cfg).nx) ∧
      (0 ≤ (cellCoords cfg (setupGrid cfg) pos).2.1 ∧
        (cellCoords cfg (setupGrid cfg) pos).2.1 < (setupGrid cfg).ny) ∧
      (0 ≤ (cellCoords cfg (setupGrid cfg) pos).2.2 ∧
        (cellCoords cfg (setupGrid cfg) pos).2.2 < (setupGrid cfg).nz) := by
  rw [cellCoords_x, cellCoords_y, cellCoords_z]
  exact ⟨⟨coordClamp_nonneg _ _, coordClamp_lt _ _ (setupGrid_nx_pos cfg)⟩,
    ⟨coordClamp_nonneg _ _, coordClamp_lt _ _ (setupGrid_ny_pos cfg)⟩,
    ⟨coordClamp_nonneg _ _, coordClamp_lt _ _ (setupGrid_nz_pos cfg)⟩⟩

theorem dist2_comm (positions : List (Vec3 α)) (i j : ℕ) :
    dist2 positions i j = dist2 positions j i := by
  unfold dist2 Vec3.norm2
  simp only [Vec3.sub_def]
  ring

/-- Completeness: with a componentwise valid domain, positive cutoff,
nonnegative skin and a cell-size factor of at least one, every unordered
pair of in-range indices whose squared separation at the snapshot is
strictly below `(cutoff + skin)^2` is recorded (in one of the two
orientations) — particle positions may lie anywhere, including outside the
configured domain, thanks to the clamping in `get_cell_coords`. -/
theorem buildPairs_complete (cfg : NeighborListConfig α)
    (positions : List (Vec3 α))
    (hcut : 0 < cfg.cutoff) (hskin : 0 ≤ cfg.skin)
    (hfac : 1 ≤ cfg.cell_size_factor)
    (hdx : cfg.domain_min.x < cfg.domain_max.x)
    (hdy : cfg.domain_min.y < cfg.domain_max.y)
    (hdz : cfg.domain_min.z < cfg.domain_max.z)
    {i j : ℕ} (hi : i < positions.length) (hj : j < positions.length)
    (hij : i < j)
    (hclose : dist2 positions i j <
      (cfg.cutoff + cfg.skin) * (cfg.cutoff + cfg.skin)) :
    (i, j) ∈ buildPairs cfg positions ∨
      (j, i) ∈ buildPairs cfg positions := by
  have hL : 0 < cfg.cutoff + cfg.skin := by linarith
  have hmc : 0 < (cfg.cutoff + cfg.skin) * cfg.cell_size_factor :=
    mul_pos hL (by linarith)
  have hLmc : cfg.cutoff + cfg.skin ≤
      (cfg.cutoff + cfg.skin) * cfg.cell_size_factor := by nlinarith
  have hex : 0 < (cfg.domain_max - cfg.domain_min).x := by
    simp only [Vec3.sub_def]; linarith
  have hey : 0 < (cfg.domain_max - cfg.domain_min).y := by
    simp only [Vec3.sub_def]; linarith
  have hez : 0 < (cfg.domain_max - cfg.domain_min).z := by
    simp only [Vec3.sub_def]; linarith
  -- Componentwise separation below `cutoff + skin`.
  have hcx : |(positions.getD j Vec3.zero).x -
      (positions.getD i Vec3.zero).x| < cfg.cutoff + cfg.skin := by
    apply abs_lt_of_mul_self_lt hL.le
    refine lt_of_le_of_lt ?_ hclose
    have := Vec3.sq_x_le_norm2
      (positions.getD j Vec3.zero - positions.getD i Vec3.zero)
    simpa [Vec3.sub_def, dist2] using this
  have hcy : |(positions.getD j Vec3.zero).y -
      (positions.getD i Vec3.zero).y| < cfg.cutoff + cfg.skin := by
    apply abs_lt_of_mul_self_lt hL.le
    refine lt_of_le_of_lt ?_ hclose
    have := Vec3.sq_y_le_norm2
      (positions.getD j Vec3.zero - positions.getD i Vec3.zero)
    simpa [Vec3.sub_def, dist2] using this
  have hcz : |(positions.getD j Vec3.zero).z -
      (positions.getD i Vec3.zero).z| < cfg.cutoff + cfg.skin := by
    apply abs_lt_of_mul_self_lt hL.le
    refine lt_of_le_of_lt ?_ hclose
    have := Vec3.sq_z_le_norm2
      (positions.getD j Vec3.zero - positions.getD i Vec3.zero)
    simpa [Vec3.sub_def, dist2] using this
  -- Per-axis bound on the cell-coordinate difference.
  have haxis_x : ((cellCoords cfg (setupGrid cfg)
        (positions.getD i Vec3.zero)).1 -
      (cellCoords cfg (setupGrid cfg) (positions.getD j Vec3.zero)).1).natAbs
        ≤ 1 := by
    rcases axis_cell_ge ((cfg.domain_max - cfg.domain_min).x)
        ((cfg.cutoff + cfg.skin) * cfg.cell_size_factor)
        hex hmc with h1 | hedge
    · have hnx1 : (setupGrid cfg).nx = 1 := (setupGrid_nx cfg).trans h1
      rw [cellCoords_x, cellCoords_x, hnx1, coordClamp_one, coordClamp_one]
      simp
    · rw [← setupGrid_nx cfg, ← setupGrid_cellSize_x cfg] at hedge
      have hepos : 0 < (setupGrid cfg).cellSize.x := by
        rw [setupGrid_cellSize_x]
        apply div_pos hex
        exact_mod_cast lt_of_lt_of_le Int.zero_lt_one (setupGrid_nx_pos cfg)
      rw [cellCoords_x, cellCoords_x]
      apply clamp_diff_le_one _ (setupGrid_nx_pos cfg) hepos
      rw [abs_sub_comm]
      exact le_trans hcx.le (le_trans hLmc hedge)
  have haxis_y : ((cellCoords cfg (setupGrid cfg)
        (positions.getD i Vec3.zero)).2.1 -
      (cellCoords cfg (setupGrid cfg)
        (positions.getD j Vec3.zero)).2.1).natAbs ≤ 1 := by
    rcases axis_cell_ge ((cfg.domain_max - cfg.domain_min).y)
        ((cfg.cutoff + cfg.skin) * cfg.cell_size_factor)
        hey hmc with h1 | hedge
    · have hny1 : (setupGrid cfg).ny = 1 := (setupGrid_ny cfg).trans h1
      rw [cellCoords_y, cellCoords_y, hny1, coordClamp_one, coordClamp_one]
      simp
    · rw [← setupGrid_ny cfg, ← setupGrid_cellSize_y cfg] at hedge
      have hepos : 0 < (setupGrid cfg).cellSize.y := by
        rw [setupGrid_cellSize_y]
        apply div_pos hey
        exact_mod_cast lt_of_lt_of_le Int.zero_lt_one (setupGrid_ny_pos cfg)
      rw [cellCoords_y, cellCoords_y]
      apply clamp_diff_le_one _ (setupGrid_ny_pos cfg) hepos
      rw [abs_sub_comm]
      exact le_trans hcy.le (le_trans hLmc hedge)
  have haxis_z : ((cellCoords cfg (setupGrid cfg)
        (positions.getD i Vec3.zero)).2.2 -
      (cellCoords cfg (setupGrid cfg)
        (positions.getD j Vec3.zero)).2.2).natAbs ≤ 1 := by
    rcases axis_cell_ge ((cfg.domain_max - cfg.domain_min).z)
        ((cfg.cutoff + cfg.skin) * cfg.cell_size_factor)
        hez hmc with h1 | hedge
    · have hnz1 : (setupGrid cfg).nz = 1 := (setupGrid_nz cfg).trans h1
      rw [cellCoords_z, cellCoords_z, hnz1, coordClamp_one, coordClamp_one]
      simp
    · rw [← setupGrid_nz cfg, ← setupGrid_cellSize_z cfg] at hedge
      have hepos : 0 < (setupGrid cfg).cellSize.z := by
        rw [setupGrid_cellSize_z]
        apply div_pos hez
        exact_mod_cast lt_of_lt_of_le Int.zero_lt_one (setupGrid_nz_pos cfg)
      rw [cellCoords_z, cellCoords_z]
      apply clamp_diff_le_one _ (setupGrid_nz_pos cfg) hepos
      rw [abs_sub_comm]
      exact le_trans hcz.le (le_trans hLmc hedge)
  set g := setupGrid cfg with hg
  set ci := cellCoords cfg g (positions.getD i Vec3.zero) with hcidef
  set cj := cellCoords cfg g (positions.getD j Vec3.zero) with hcjdef
  have hrange_i := cellCoords_range cfg (positions.getD i Vec3.zero)
  have hrange_j := cellCoords_range cfg (positions.getD j Vec3.zero)
  rw [← hg, ← hcidef] at hrange_i
  rw [← hg, ← hcjdef] at hrange_j
  have mi : i ∈ cellsMap cfg g positions ci :=
    (mem_cellsMap cfg g positions ci i).mpr ⟨hi, hcidef.symm⟩
  have mj : j ∈ cellsMap cfg g positions cj :=
    (mem_cellsMap cfg g positions cj j).mpr ⟨hj, hcjdef.symm⟩
  have hclose_ij : closePair cfg positions (i, j) = true := by
    unfold closePair
    exact decide_eq_true hclose
  have hclose_ji : closePair cfg positions (j, i) = true := by
    unfold closePair
    refine decide_eq_true ?_
    rw [show dist2 positions (j, i).1 (j, i).2 = dist2 positions i j from
      dist2_comm positions j i]
    exact hclose
  by_cases hcc : ci = cj
  · -- Same cell: the ordered pair appears in the intra-cell block.
    left
    show (i, j) ∈ (allCellCoords g).flatMap
      (cellBlock cfg g positions (cellsMap cfg g positions))
    refine List.mem_flatMap.mpr ⟨ci, (mem_allCellCoords g ci).mpr
      ⟨hrange_i.1, hrange_i.2.1, hrange_i.2.2⟩, ?_⟩
    refine (mem_cellBlock cfg g positions _ ci (i, j)).mpr (Or.inl ?_)
    refine List.mem_filter.mpr ⟨?_, hclose_ij⟩
    exact listPairs_complete (cellsMap_sorted cfg g positions ci) mi
      (hcc ▸ mj) hij
  · -- Adjacent distinct cells: one orientation sits in a half-shell block.
    have hd1 : -1 ≤ cj.1 - ci.1 ∧ cj.1 - ci.1 ≤ 1 := by omega
    have hd2 : -1 ≤ cj.2.1 - ci.2.1 ∧ cj.2.1 - ci.2.1 ≤ 1 := by omega
    have hd3 : -1 ≤ cj.2.2 - ci.2.2 ∧ cj.2.2 - ci.2.2 ≤ 1 := by omega
    have hne : ¬(cj.1 - ci.1 = 0 ∧ cj.2.1 - ci.2.1 = 0 ∧
        cj.2.2 - ci.2.2 = 0) := by
      intro h
      exact hcc (triple_eq_iff.mpr ⟨by omega, by omega, by omega⟩)
    rcases shell_cover hd1.1 hd1.2 hd2.1 hd2.2 hd3.1 hd3.2 hne with
      hsh | hsh
    · -- Forward offset in the shell: `(i, j)` in the block of cell `ci`.
      left
      show (i, j) ∈ (allCellCoords g).flatMap
        (cellBlock cfg g positions (cellsMap cfg g positions))
      refine List.mem_flatMap.mpr ⟨ci, (mem_allCellCoords g ci).mpr
        ⟨hrange_i.1, hrange_i.2.1, hrange_i.2.2⟩, ?_⟩
      refine (mem_cellBlock cfg g positions _ ci (i, j)).mpr (Or.inr ?_)
      refine ⟨(cj.1 - ci.1, cj.2.1 - ci.2.1, cj.2.2 - ci.2.2), ?_, ?_⟩
      · refine List.mem_filter.mpr ⟨hsh, ?_⟩
        simp only [Bool.and_eq_true, decide_eq_true_eq]
        refine ⟨⟨⟨⟨⟨?_, ?_⟩, ?_⟩, ?_⟩, ?_⟩, ?_⟩ <;> omega
      · refine (mem_crossPairs cfg positions _ _ (i, j)).mpr ⟨mi, ?_,
          hclose_ij⟩
        dsimp only
        have : (ci.1 + (cj.1 - ci.1), ci.2.1 + (cj.2.1 - ci.2.1),
            ci.2.2 + (cj.2.2 - ci.2.2)) = cj :=
          triple_eq_iff.mpr ⟨by dsimp only; omega, by dsimp only; omega,
            by dsimp only; omega⟩
        rw [this]
        exact mj
    · -- Backward offset in the shell: `(j, i)` in the block of cell `cj`.
      right
      show (j, i) ∈ (allCellCoords g).flatMap
        (cellBlock cfg g positions (cellsMap cfg g positions))
      refine List.mem_flatMap.mpr ⟨cj, (mem_allCellCoords g cj).mpr
        ⟨hrange_j.1, hrange_j.2.1, hrange_j.2.2⟩, ?_⟩
      refine (mem_cellBlock cfg g positions _ cj (j, i)).mpr (Or.inr ?_)
      refine ⟨(-(cj.1 - ci.1), -(cj.2.1 - ci.2.1), -(cj.2.2 - ci.2.2)),
        ?_, ?_⟩
      · refine List.mem_filter.mpr ⟨hsh, ?_⟩
        simp only [Bool.and_eq_true, decide_eq_true_eq]
        refine ⟨⟨⟨⟨⟨?_, ?_⟩, ?_⟩, ?_⟩, ?_⟩, ?_⟩ <;> omega
      · refine (mem_crossPairs cfg positions _ _ (j, i)).mpr ⟨mj, ?_,
          hclose_ji⟩
        dsimp only
        have : (cj.1 + -(cj.1 - ci.1), cj.2.1 + -(cj.2.1 - ci.2.1),
            cj.2.2 + -(cj.2.2 - ci.2.2)) = ci :=
          triple_eq_iff.mpr ⟨by dsimp only; omega, by dsimp only; omega,
            by dsimp only; omega⟩
        rw [this]
        exact mi

end NeighborList

/-! ### Concrete neighbor-list scenario used for claims C1 and C2 -/

/-- A small valid configuration: cutoff 1, no skin, unit cell factor,
domain `[0,2] × [0,1] × [0,1]` (grid `2 × 1 × 1`). -/
def nlCfgA : NeighborListConfig ℚ :=
  { cutoff := 1
    skin := 0
    cell_size_factor := 1
    domain_min := ⟨0, 0, 0⟩
    domain_max := ⟨2, 1, 1⟩
    enable_stats := false }

/-- Two particles 0.6 apart: particle 0 in the second cell, particle 1 in
the first cell. -/
def nlPosA : List (Vec3 ℚ) := [⟨3/2, 1/2, 1/2⟩, ⟨9/10, 1/2, 1/2⟩]

theorem nlCfgA_grid : setupGrid nlCfgA = ⟨2, 1, 1, ⟨1, 1, 1⟩⟩ := by
  unfold setupGrid nlCfgA
  norm_num [truncToInt, Vec3.sub_def]

theorem nlPosA_coords0 :
    cellCoords nlCfgA (setupGrid nlCfgA) (⟨3/2, 1/2, 1/2⟩ : Vec3 ℚ) =
      (1, 0, 0) := by
  rw [nlCfgA_grid]
  unfold cellCoords nlCfgA coordClamp
  norm_num [truncToInt, Vec3.sub_def]

theorem nlPosA_coords1 :
    cellCoords nlCfgA (setupGrid nlCfgA) (⟨9/10, 1/2, 1/2⟩ : Vec3 ℚ) =
      (0, 0, 0) := by
  rw [nlCfgA_grid]
  unfold cellCoords nlCfgA coordClamp
  norm_num [truncToInt, Vec3.sub_def]

theorem nlPosA_dist2 : dist2 nlPosA 1 0 = 9/25 := by
  unfold dist2 nlPosA Vec3.norm2
  norm_num [Vec3.sub_def]

theorem nlPosA_mem1 : 1 ∈ cellsMap nlCfgA (setupGrid nlCfgA) nlPosA
    (0, 0, 0) := by
  refine (mem_cellsMap nlCfgA _ nlPosA (0, 0, 0) 1).mpr ⟨by norm_num [nlPosA], ?_⟩
  show cellCoords nlCfgA (setupGrid nlCfgA) (nlPosA.getD 1 Vec3.zero) = _
  rw [show nlPosA.getD 1 Vec3.zero = (⟨9/10, 1/2, 1/2⟩ : Vec3 ℚ) from rfl]
  exact nlPosA_coords1

theorem nlPosA_mem0 : 0 ∈ cellsMap nlCfgA (setupGrid nlCfgA) nlPosA
    (1, 0, 0) := by
  refine (mem_cellsMap nlCfgA _ nlPosA (1, 0, 0) 0).mpr ⟨by norm_num [nlPosA], ?_⟩
  show cellCoords nlCfgA (setupGrid nlCfgA) (nlPosA.getD 0 Vec3.zero) = _
  rw [show nlPosA.getD 0 Vec3.zero = (⟨3/2, 1/2, 1/2⟩ : Vec3 ℚ) from rfl]
  exact nlPosA_coords0

/-- The build of `nlPosA` records the cross-cell pair in the order
`(1, 0)` — the half-shell enumeration pairs the lower cell's particle
(index 1) with the upper cell's particle (index 0). -/
theorem nlPosA_pair_mem : ((1 : ℕ), (0 : ℕ)) ∈ buildPairs nlCfgA nlPosA := by
  show (1, 0) ∈ (allCellCoords (setupGrid nlCfgA)).flatMap
    (cellBlock nlCfgA (setupGrid nlCfgA) nlPosA
      (cellsMap nlCfgA (setupGrid nlCfgA) nlPosA))
  refine List.mem_flatMap.mpr ⟨(0, 0, 0), ?_, ?_⟩
  · refine (mem_allCellCoords _ (0, 0, 0)).mpr ?_
    rw [nlCfgA_grid]
    norm_num
  · refine (mem_cellBlock nlCfgA _ nlPosA _ (0, 0, 0) (1, 0)).mpr
      (Or.inr ⟨(1, 0, 0), ?_, ?_⟩)
    · refine List.mem_filter.mpr ⟨by decide, ?_⟩
      rw [nlCfgA_grid]
      decide
    · refine (mem_crossPairs nlCfgA nlPosA _ _ (1, 0)).mpr
        ⟨nlPosA_mem1, ?_, ?_⟩
      · show 0 ∈ cellsMap nlCfgA (setupGrid nlCfgA) nlPosA (0 + 1, 0 + 0, 0 + 0)
        rw [show ((0 + 1 : ℤ), (0 + 0 : ℤ), (0 + 0 : ℤ)) = ((1 : ℤ), (0 : ℤ), (0 : ℤ)) from by norm_num]
        exact nlPosA_mem0
      · unfold closePair
        refine decide_eq_true ?_
        rw [show dist2 nlPosA (1, 0).1 (1, 0).2 = 9/25 from nlPosA_dist2]
        unfold nlCfgA
        norm_num

/-- C1: the pair list holds `(i, j)` with `i < j` — refuted: the build for
`nlPosA` records the pair `(1, 0)`, whose first index is not below its
second. -/
theorem C1_counterexample :
    ((1 : ℕ), (0 : ℕ)) ∈ buildPairs nlCfgA nlPosA ∧ ¬((1 : ℕ) < 0) := by
  exact ⟨nlPosA_pair_mem, by omega⟩

/-- C1 (amended): every pair recorded by `NeighborList::build` has distinct
indices (cross-cell pairs may come in either order, intra-cell pairs are
ordered), in-range indices, separation at the build snapshot of at most
`cutoff + skin` (indeed strictly less), and no unordered pair of indices is
recorded twice. -/
theorem C1_pair_list_sound_unique {α : Type} [LinearOrderedField α]
    [FloorRing α] (cfg : NeighborListConfig α)
    (positions : List (Vec3 α)) :
    (∀ p ∈ buildPairs cfg positions,
        p.1 < positions.length ∧ p.2 < positions.length ∧ p.1 ≠ p.2 ∧
          dist2 positions p.1 p.2 ≤
            (cfg.cutoff + cfg.skin) * (cfg.cutoff + cfg.skin)) ∧
      ∀ i j : ℕ, (buildPairs cfg positions).countP (hits i j) ≤ 1 := by
  constructor
  · intro p hp
    have h := buildPairs_sound cfg positions hp
    exact ⟨h.1, h.2.1, h.2.2.1, le_of_lt h.2.2.2⟩
  · intro i j
    exact buildPairs_count_le_one cfg positions i j

/-- Witness for C1 (amended): the concrete recorded pair `(1, 0)` of the
`nlPosA` build indeed has distinct in-range indices and separation within
`cutoff + skin`, and the unordered pair `{0, 1}` is recorded at most once. -/
theorem C1_pair_list_sound_unique_witness :
    (((1 : ℕ), (0 : ℕ)) ∈ buildPairs nlCfgA nlPosA) ∧
      ((1 : ℕ) < nlPosA.length ∧ (0 : ℕ) < nlPosA.length ∧ (1 : ℕ) ≠ 0 ∧
        dist2 nlPosA 1 0 ≤
          (nlCfgA.cutoff + nlCfgA.skin) * (nlCfgA.cutoff + nlCfgA.skin)) ∧
      (buildPairs nlCfgA nlPosA).countP (hits 0 1) ≤ 1 := by
  refine ⟨nlPosA_pair_mem, ?_, ?_⟩
  · exact (C1_pair_list_sound_unique nlCfgA nlPosA).1 (1, 0) nlPosA_pair_mem
  · exact (C1_pair_list_sound_unique nlCfgA nlPosA).2 0 1

/-- Positions for the C2 boundary counterexample: two particles exactly
`cutoff + skin` apart. -/
def nlPosB : List (Vec3 ℚ) := [⟨1/5, 1/2, 1/2⟩, ⟨6/5, 1/2, 1/2⟩]

theorem nlPosB_dist2 : dist2 nlPosB 0 1 = 1 := by
  unfold dist2 nlPosB Vec3.norm2
  norm_num [Vec3.sub_def]

/-- C2: every unordered pair with separation `≤ cutoff + skin` appears —
refuted at the boundary: two particles exactly `cutoff + skin = 1` apart
(separation `≤ cutoff + skin` holds) are recorded in neither orientation,
because the build admits pairs only with `r² < (cutoff + skin)²`
(strict, `neighbor_list.cpp` line 106/140). -/
theorem C2_counterexample :
    dist2 nlPosB 0 1 ≤ (nlCfgA.cutoff + nlCfgA.skin) *
        (nlCfgA.cutoff + nlCfgA.skin) ∧
      ((0 : ℕ), (1 : ℕ)) ∉ buildPairs nlCfgA nlPosB ∧
      ((1 : ℕ), (0 : ℕ)) ∉ buildPairs nlCfgA nlPosB := by
  refine ⟨?_, ?_, ?_⟩
  · rw [nlPosB_dist2]
    unfold nlCfgA
    norm_num
  · intro h
    have hs := buildPairs_sound nlCfgA nlPosB h
    rw [show dist2 nlPosB (0, 1).1 (0, 1).2 = 1 from nlPosB_dist2] at hs
    have := hs.2.2.2
    unfold nlCfgA at this
    norm_num at this
  · intro h
    have hs := buildPairs_sound nlCfgA nlPosB h
    have hd : dist2 nlPosB (1, 0).1 (1, 0).2 = 1 := by
      rw [show dist2 nlPosB (1, 0).1 (1, 0).2 = dist2 nlPosB 0 1 from
        dist2_comm nlPosB 1 0]
      exact nlPosB_dist2
    rw [hd] at hs
    have := hs.2.2.2
    unfold nlCfgA at this
    norm_num at this

/-- C2 (amended): for a valid configuration whose cell-size factor is at
least one, after a build every unordered pair of distinct in-range indices
whose squared separation at the snapshot is strictly below
`(cutoff + skin)^2` appears in the pair list in one of its two
orientations; positions may lie anywhere, including outside the configured
domain.  In particular (skin positive) an all-pairs sweep at radius
`cutoff` yields a subset of the recorded unordered pairs. -/
theorem C2_neighbor_list_complete {α : Type} [LinearOrderedField α]
    [FloorRing α] (cfg : NeighborListConfig α)
    (positions : List (Vec3 α))
    (hcut : 0 < cfg.cutoff) (hskin : 0 ≤ cfg.skin)
    (hfac : 1 ≤ cfg.cell_size_factor)
    (hdx : cfg.domain_min.x < cfg.domain_max.x)
    (hdy : cfg.domain_min.y < cfg.domain_max.y)
    (hdz : cfg.domain_min.z < cfg.domain_max.z)
    {i j : ℕ} (hi : i < positions.length) (hj : j < positions.length)
    (hij : i < j)
    (hclose : dist2 positions i j <
      (cfg.cutoff + cfg.skin) * (cfg.cutoff + cfg.skin)) :
    (i, j) ∈ buildPairs cfg positions ∨
      (j, i) ∈ buildPairs cfg positions :=
  buildPairs_complete cfg positions hcut hskin hfac hdx hdy hdz hi hj hij
    hclose

/-- Witness for C2 (amended): the 0.6-apart pair of `nlPosA` is recorded in
one of its orientations. -/
theorem C2_neighbor_list_complete_witness :
    (0 < nlCfgA.cutoff ∧ 0 ≤ nlCfgA.skin ∧ 1 ≤ nlCfgA.cell_size_factor ∧
      nlCfgA.domain_min.x < nlCfgA.domain_max.x ∧
      nlCfgA.domain_min.y < nlCfgA.domain_max.y ∧
      nlCfgA.domain_min.z < nlCfgA.domain_max.z ∧
      (0 : ℕ) < nlPosA.length ∧ (1 : ℕ) < nlPosA.length ∧
      dist2 nlPosA 0 1 <
        (nlCfgA.cutoff + nlCfgA.skin) * (nlCfgA.cutoff + nlCfgA.skin)) ∧
    (((0 : ℕ), (1 : ℕ)) ∈ buildPairs nlCfgA nlPosA ∨
      ((1 : ℕ), (0 : ℕ)) ∈ buildPairs nlCfgA nlPosA) := by
  have hd : dist2 nlPosA 0 1 = 9/25 := by
    rw [dist2_comm]
    exact nlPosA_dist2
  refine ⟨⟨by norm_num [nlCfgA], by norm_num [nlCfgA], by norm_num [nlCfgA],
    by norm_num [nlCfgA], by norm_num [nlCfgA], by norm_num [nlCfgA],
    by norm_num [nlPosA], by norm_num [nlPosA], ?_⟩, ?_⟩
  · rw [hd]
    norm_num [nlCfgA]
  · exact C2_neighbor_list_complete nlCfgA nlPosA
      (by norm_num [nlCfgA]) (by norm_num [nlCfgA]) (by norm_num [nlCfgA])
      (by norm_num [nlCfgA]) (by norm_num [nlCfgA]) (by norm_num [nlCfgA])
      (by norm_num [nlPosA]) (by norm_num [nlPosA]) (by norm_num)
      (by rw [hd]; norm_num [nlCfgA])

/-! ### Molecular-dynamics system (`modules/md/md_system.cpp`, `.hpp`) -/

section MDSystem

variable {α : Type} [LinearOrderedField α] [FloorRing α]

/-- `struct Particle`, `simcore/state/particle.hpp`. -/
structure Particle (α : Type) where
  position : Vec3 α
  velocity : Vec3 α
  mass : α
deriving DecidableEq, Repr

/-- Default member initializers of `Particle`. -/
def defaultParticle : Particle α := ⟨Vec3.zero, Vec3.zero, 1⟩

/-- `struct MDConfig`, `modules/md/md_system.hpp` lines 12-24, with its
default member initializers. -/
structure MDConfig (α : Type) where
  epsilon : α
  sigma : α
  rcut_sigma : α
  nvt : Bool
  temp : α
  tau_thermo : α
  use_neighbor_list : Bool
  nlist_skin : α
  nlist_check_interval : ℤ
deriving DecidableEq, Repr

/-- The defaults of `MDConfig`. -/
def defaultMDConfig : MDConfig α :=
  { epsilon := 1
    sigma := 1
    rcut_sigma := 5 / 2
    nvt := false
    temp := 1
    tau_thermo := 1
    use_neighbor_list := true
    nlist_skin := 3 / 10
    nlist_check_interval := 10 }

/-- One pair interaction of the Lennard-Jones kernels
(`md_system.cpp` lines 24-39 and 57-77; the loop body is identical in
`lj_forces_all_pairs` and `lj_forces_neighbor_list`): compute
`rij = p[j] - p[i]`, reject when `r² > rc²` or `r² = 0`, otherwise
accumulate `forces[i] -= mag*rij` and `forces[j] += mag*rij`. -/
def ljForceMag (cfg : MDConfig α) (r2 : α) : α :=
  let inv_r2 := 1 / r2
  let inv_r6 := inv_r2 * inv_r2 * inv_r2
  let sig2 := cfg.sigma * cfg.sigma
  let sig6 := sig2 * sig2 * sig2
  let sig12 := sig6 * sig6
  24 * cfg.epsilon * inv_r2 * (2 * sig12 * inv_r6 * inv_r6 - sig6 * inv_r6)

/-- The two accumulator writes `forces[i] -= fij; forces[j] += fij`. -/
def pairAccum (forces : List (Vec3 α)) (i j : ℕ) (fij : Vec3 α) :
    List (Vec3 α) :=
  (forces.set i (forces.getD i 0 - fij)).set j
    ((forces.set i (forces.getD i 0 - fij)).getD j 0 + fij)

def applyPair (cfg : MDConfig α) (ps : List (Particle α))
    (forces : List (Vec3 α)) (pr : ℕ × ℕ) : List (Vec3 α) :=
  if Vec3.norm2 ((ps.getD pr.2 defaultParticle).position -
        (ps.getD pr.1 defaultParticle).position) >
      cfg.rcut_sigma * cfg.sigma * (cfg.rcut_sigma * cfg.sigma) ∨
    Vec3.norm2 ((ps.getD pr.2 defaultParticle).position -
      (ps.getD pr.1 defaultParticle).position) = 0
  then forces
  else
    pairAccum forces pr.1 pr.2
      (ljForceMag cfg (Vec3.norm2 ((ps.getD pr.2 defaultParticle).position -
          (ps.getD pr.1 defaultParticle).position)) •
        ((ps.getD pr.2 defaultParticle).position -
          (ps.getD pr.1 defaultParticle).position))

/-- The ordered pair enumeration of the `O(N²)` sweep
(`md_system.cpp` lines 22-24: `i` from `0`, `j` from `i+1`). -/
def allPairsList (n : ℕ) : List (ℕ × ℕ) :=
  (List.range n).flatMap fun i => ((List.range n).drop (i + 1)).map fun j => (i, j)

/-- `lj_forces_all_pairs` (`md_system.cpp` lines 11-42): zero-fill then
accumulate over all ordered pairs. -/
def lj_forces_all_pairs (cfg : MDConfig α) (ps : List (Particle α)) :
    List (Vec3 α) :=
  (allPairsList ps.length).foldl (applyPair cfg ps)
    (List.replicate ps.length 0)

/-- `lj_forces_neighbor_list` (`md_system.cpp` lines 45-78): zero-fill then
accumulate over the supplied neighbor pairs. -/
def lj_forces_neighbor_list (cfg : MDConfig α) (ps : List (Particle α))
    (pairs : List (ℕ × ℕ)) : List (Vec3 α) :=
  pairs.foldl (applyPair cfg ps) (List.replicate ps.length 0)

/-- The neighbor-list object state (`NeighborList`,
`simcore/spatial/neighbor_list.hpp`): configuration, grid, last pair list,
reference positions and validity flag.  The statistics fields only feed
logging and accessors and are not modelled. -/
structure NLState (α : Type) where
  cfg : NeighborListConfig α
  grid : NLGrid α
  pairs : List (ℕ × ℕ)
  refPositions : List (Vec3 α)
  valid : Bool

/-- `NeighborList::NeighborList` (constructor runs `setup_grid`; the pair
list starts empty and invalid). -/
def nlNew (cfg : NeighborListConfig α) : NLState α :=
  ⟨cfg, setupGrid cfg, [], [], false⟩

/-- `NeighborList::build` (`neighbor_list.cpp` lines 56-85). -/
def nlBuild (st : NLState α) (positions : List (Vec3 α)) : NLState α :=
  { st with
    pairs := buildPairs st.cfg positions
    refPositions := positions
    valid := true }

/-- `NeighborList::needs_rebuild` (`neighbor_list.cpp` lines 153-175):
rebuild when invalid, when the particle count changed, or when the largest
squared displacement from the reference snapshot exceeds `(skin/2)²`. -/
def nlNeedsRebuild (st : NLState α) (positions : List (Vec3 α)) : Bool :=
  if !st.valid then true
  else if st.refPositions.length ≠ positions.length then true
  else
    let maxDispSq := (positions.zip st.refPositions).foldl
      (fun m pq => max m (Vec3.norm2 (pq.1 - pq.2))) 0
    decide (maxDispSq > (st.cfg.skin * (1/2)) * (st.cfg.skin * (1/2)))

/-- The MD system's own state (`MDSystem`, `md_system.hpp` lines 26-45):
configuration, the owned neighbor list (present exactly when
`use_neighbor_list` is set) and the `steps_since_check_` counter. -/
structure MDState (α : Type) where
  cfg : MDConfig α
  nl : Option (NLState α)
  stepsSinceCheck : ℤ

/-- `MDSystem::MDSystem` (`md_system.cpp` lines 80-99): when the neighbor
list is enabled, construct it with cutoff `rcut_sigma * sigma`, the
configured skin, stats on, and the provisional domain `[-10, 10]³`. -/
def mdSystemNew (cfg : MDConfig α) : MDState α :=
  { cfg := cfg
    nl :=
      if cfg.use_neighbor_list then
        some (nlNew
          { cutoff := cfg.rcut_sigma * cfg.sigma
            skin := cfg.nlist_skin
            cell_size_factor := 1
            domain_min := ⟨-10, -10, -10⟩
            domain_max := ⟨10, 10, 10⟩
            enable_stats := true })
      else none
    stepsSinceCheck := 0 }

/-- Step 1 of `MDSystem::integrate` (`md_system.cpp` lines 117-161):
periodic rebuild check with domain auto-expansion, then the first-step
forced build.  Reading `positions[0]` with zero particles
(`md_system.cpp` line 127) is undefined behaviour on an empty vector and
is modelled as `none`. -/
def mdMaintain (st : MDState α) (ps : List (Particle α)) :
    Option (MDState α) :=
  match st.nl with
  | none => some st
  | some nl =>
    if st.cfg.use_neighbor_list then
      let afterCheck : Option (MDState α) :=
        let counter := st.stepsSinceCheck + 1
        if counter ≥ st.cfg.nlist_check_interval then
          let positions := ps.map Particle.position
          if nlNeedsRebuild nl positions then
            match positions with
            | [] => none
            | p0 :: _ =>
              let pmin := positions.foldl
                (fun acc p => ⟨min acc.x p.x, min acc.y p.y, min acc.z p.z⟩)
                p0
              let pmax := positions.foldl
                (fun acc p => ⟨max acc.x p.x, max acc.y p.y, max acc.z p.z⟩)
                p0
              let margin := 2 * (st.cfg.rcut_sigma * st.cfg.sigma +
                st.cfg.nlist_skin)
              let nlCfg : NeighborListConfig α :=
                { cutoff := st.cfg.rcut_sigma * st.cfg.sigma
                  skin := st.cfg.nlist_skin
                  cell_size_factor := 1
                  domain_min := pmin - ⟨margin, margin, margin⟩
                  domain_max := pmax + ⟨margin, margin, margin⟩
                  enable_stats := true }
              some { st with nl := some (nlBuild (nlNew nlCfg) positions)
                             stepsSinceCheck := 0 }
          else some { st with stepsSinceCheck := 0 }
        else some { st with stepsSinceCheck := counter }
      match afterCheck with
      | none => none
      | some st1 =>
        -- First-step forced build (`md_system.cpp` lines 156-160).
        match st1.nl with
        | some nl1 =>
          if nl1.pairs = [] ∧ 0 < ps.length then
            some { st1 with
              nl := some (nlBuild nl1 (ps.map Particle.position)) }
          else some st1
        | none => some st1
    else some st

/-- Force dispatch of `MDSystem::integrate` (`md_system.cpp` lines
163-168 and 178-183): the neighbor-list kernel runs only when the list is
enabled, present and nonempty; otherwise the all-pairs fallback. -/
def computeForces (st : MDState α) (ps : List (Particle α)) :
    List (Vec3 α) :=
  match st.nl with
  | some nl =>
    if st.cfg.use_neighbor_list ∧ nl.pairs ≠ [] then
      lj_forces_neighbor_list st.cfg ps nl.pairs
    else lj_forces_all_pairs st.cfg ps
  | none => lj_forces_all_pairs st.cfg ps

/-- Step 3 of `MDSystem::integrate` (lines 170-176): half velocity kick
followed by a full position drift with the updated velocity. -/
def halfKickDrift (ps : List (Particle α)) (forces : List (Vec3 α))
    (dt : α) : List (Particle α) :=
  List.zipWith
    (fun (p : Particle α) (f : Vec3 α) =>
      let a := (1 / p.mass) • f
      let v := p.velocity + ((1/2) * dt) • a
      { p with velocity := v, position := p.position + dt • v })
    ps forces

/-- Step 5 of `MDSystem::integrate` (lines 185-190): second half kick. -/
def halfKick (ps : List (Particle α)) (forces : List (Vec3 α)) (dt : α) :
    List (Particle α) :=
  List.zipWith
    (fun (p : Particle α) (f : Vec3 α) =>
      let a := (1 / p.mass) • f
      { p with velocity := p.velocity + ((1/2) * dt) • a })
    ps forces

/-- Step 6 of `MDSystem::integrate` (lines 192-203): the Berendsen
thermostat.  Note the source has no guard on the particle count or on the
instantaneous temperature: it always computes
`λ = sqrt(1 + (dt/τ)(T₀/T − 1))` and rescales every velocity. -/
def berendsen (sqrtFn : α → α) (cfg : MDConfig α)
    (ps : List (Particle α)) (dt : α) : List (Particle α) :=
  if cfg.nvt then
    let ke := ps.foldl
      (fun acc p => acc + (1/2) * p.mass * p.velocity.norm2) 0
    let tInst := (2/3) * (ke / (ps.length : α))
    let lam := sqrtFn (1 + (dt / cfg.tau_thermo) * (cfg.temp / tInst - 1))
    ps.map fun p => { p with velocity := lam • p.velocity }
  else ps

/-- `MDSystem::integrate` (`md_system.cpp` lines 108-204): neighbor-list
maintenance, velocity-Verlet step, optional thermostat.  `sqrtFn` stands
for `std::sqrt`. -/
def mdIntegrate (sqrtFn : α → α) (st : MDState α)
    (ps : List (Particle α)) (dt : α) :
    Option (MDState α × List (Particle α)) :=
  match mdMaintain st ps with
  | none => none
  | some st1 =>
    let f1 := computeForces st1 ps
    let ps1 := halfKickDrift ps f1 dt
    let f2 := computeForces st1 ps1
    let ps2 := halfKick ps1 f2 dt
    let ps3 := berendsen sqrtFn st1.cfg ps2 dt
    some (st1, ps3)

/-! ### Momentum conservation of the force kernels (claim C10) -/

theorem sum_set_eq {M : Type} [AddCommGroup M] :
    ∀ (l : List M) (k : ℕ), k < l.length → ∀ v : M,
      (l.set k v).sum = l.sum - l.getD k 0 + v
  | [], k, hk, v => by simp at hk
  | a :: l, 0, _, v => by
    simp only [List.set, List.sum_cons, List.getD_cons_zero]
    abel
  | a :: l, k + 1, hk, v => by
    simp only [List.set, List.sum_cons, List.getD_cons_succ]
    rw [sum_set_eq l k (by simpa using hk) v]
    abel

@[simp] theorem norm2_zero_vec : (0 : Vec3 α).norm2 = 0 := by
  show Vec3.norm2 ⟨0, 0, 0⟩ = 0
  unfold Vec3.norm2
  ring

theorem applyPair_length (cfg : MDConfig α) (ps : List (Particle α))
    (forces : List (Vec3 α)) (pr : ℕ × ℕ) :
    (applyPair cfg ps forces pr).length = forces.length := by
  unfold applyPair
  split
  · rfl
  · simp [pairAccum, List.length_set]

theorem getD_set_ne {M : Type} [AddCommGroup M] (l : List M) {i j : ℕ}
    (h : i ≠ j) (v : M) : (l.set i v).getD j 0 = l.getD j 0 := by
  simp [List.getD, List.getElem?_set_ne h]

theorem applyPair_ne_of_active (cfg : MDConfig α) (ps : List (Particle α))
    (pr : ℕ × ℕ)
    (hact : ¬((Vec3.norm2 ((ps.getD pr.2 defaultParticle).position -
        (ps.getD pr.1 defaultParticle).position) >
          cfg.rcut_sigma * cfg.sigma * (cfg.rcut_sigma * cfg.sigma)) ∨
        Vec3.norm2 ((ps.getD pr.2 defaultParticle).position -
          (ps.getD pr.1 defaultParticle).position) = 0)) :
    pr.1 ≠ pr.2 := by
  intro hEq
  apply hact
  right
  rw [hEq, sub_self]
  exact norm2_zero_vec

theorem applyPair_sum (cfg : MDConfig α) (ps : List (Particle α))
    (forces : List (Vec3 α)) (pr : ℕ × ℕ)
    (h1 : pr.1 < forces.length) (h2 : pr.2 < forces.length) :
    (applyPair cfg ps forces pr).sum = forces.sum := by
  unfold applyPair
  split
  · rfl
  · rename_i hact
    have hne : pr.1 ≠ pr.2 := applyPair_ne_of_active cfg ps pr hact
    unfold pairAccum
    rw [sum_set_eq _ pr.2 (by rw [List.length_set]; exact h2),
      sum_set_eq forces pr.1 h1, getD_set_ne forces hne]
    abel

theorem foldl_applyPair_sum (cfg : MDConfig α) (ps : List (Particle α)) :
    ∀ (pairs : List (ℕ × ℕ)) (forces : List (Vec3 α)),
      (∀ p ∈ pairs, p.1 < forces.length ∧ p.2 < forces.length) →
      (pairs.foldl (applyPair cfg ps) forces).sum = forces.sum
  | [], forces, _ => rfl
  | pr :: pairs, forces, h => by
    rw [List.foldl_cons]
    have hpr := h pr (List.mem_cons_self _ _)
    rw [foldl_applyPair_sum cfg ps pairs _ (fun p hp => by
      rw [applyPair_length]
      exact h p (List.mem_cons_of_mem _ hp))]
    exact applyPair_sum cfg ps forces pr hpr.1 hpr.2

theorem sum_replicate_zero (n : ℕ) :
    (List.replicate n (0 : Vec3 α)).sum = 0 := by
  induction n with
  | zero => rfl
  | succ k ih => rw [List.replicate_succ, List.sum_cons, ih, add_zero]

theorem mem_allPairsList_lt {n : ℕ} {p : ℕ × ℕ}
    (hp : p ∈ allPairsList n) : p.1 < n ∧ p.2 < n := by
  unfold allPairsList at hp
  rcases List.mem_flatMap.mp hp with ⟨i, hi, hmem⟩
  rcases List.mem_map.mp hmem with ⟨j, hj, rfl⟩
  exact ⟨List.mem_range.mp hi,
    List.mem_range.mp (((List.range n).drop_sublist (i + 1)).mem hj)⟩

/-- C10: for every particle set and every in-range pair list, the force
arrays of both Lennard-Jones evaluations sum to the zero vector — each
accumulated pair adds `fij` to one particle and `-fij` to the other, so
every MD force evaluation conserves total momentum exactly.  (Out-of-range
indices would be undefined behaviour in the C++ `forces[i]` accesses, so
the pair list is required to be in range; the list built by
`NeighborList::build` always is.) -/
theorem C10_forces_sum_zero {α : Type} [LinearOrderedField α] [FloorRing α]
    (cfg : MDConfig α) (ps : List (Particle α)) (pairs : List (ℕ × ℕ))
    (hrange : ∀ p ∈ pairs, p.1 < ps.length ∧ p.2 < ps.length) :
    (lj_forces_neighbor_list cfg ps pairs).sum = 0 ∧
      (lj_forces_all_pairs cfg ps).sum = 0 := by
  constructor
  · unfold lj_forces_neighbor_list
    rw [foldl_applyPair_sum cfg ps pairs _ (fun p hp => by
      rw [List.length_replicate]
      exact hrange p hp)]
    exact sum_replicate_zero _
  · unfold lj_forces_all_pairs
    rw [foldl_applyPair_sum cfg ps _ _ (fun p hp => by
      rw [List.length_replicate]
      exact mem_allPairsList_lt hp)]
    exact sum_replicate_zero _

/-- Witness for C10 at a concrete two-particle system with its pair. -/
theorem C10_forces_sum_zero_witness :
    (∀ p ∈ [((0 : ℕ), (1 : ℕ))], p.1 < ([⟨⟨0,0,0⟩, ⟨0,0,0⟩, 1⟩,
        ⟨⟨1,0,0⟩, ⟨0,0,0⟩, 1⟩] : List (Particle ℚ)).length ∧
      p.2 < ([⟨⟨0,0,0⟩, ⟨0,0,0⟩, 1⟩,
        ⟨⟨1,0,0⟩, ⟨0,0,0⟩, 1⟩] : List (Particle ℚ)).length) ∧
    (lj_forces_neighbor_list (defaultMDConfig (α := ℚ))
        [⟨⟨0,0,0⟩, ⟨0,0,0⟩, 1⟩, ⟨⟨1,0,0⟩, ⟨0,0,0⟩, 1⟩]
        [((0 : ℕ), (1 : ℕ))]).sum = 0 ∧
      (lj_forces_all_pairs (defaultMDConfig (α := ℚ))
        [⟨⟨0,0,0⟩, ⟨0,0,0⟩, 1⟩, ⟨⟨1,0,0⟩, ⟨0,0,0⟩, 1⟩]).sum = 0 := by
  have hr : ∀ p ∈ [((0 : ℕ), (1 : ℕ))], p.1 < ([⟨⟨0,0,0⟩, ⟨0,0,0⟩, 1⟩,
      ⟨⟨1,0,0⟩, ⟨0,0,0⟩, 1⟩] : List (Particle ℚ)).length ∧
      p.2 < ([⟨⟨0,0,0⟩, ⟨0,0,0⟩, 1⟩,
        ⟨⟨1,0,0⟩, ⟨0,0,0⟩, 1⟩] : List (Particle ℚ)).length := by
    intro p hp
    rcases List.mem_singleton.mp hp with rfl
    constructor <;> norm_num
  exact ⟨hr, C10_forces_sum_zero (defaultMDConfig (α := ℚ)) _ _ hr⟩

/-! ### Coincident particles (claim C9) -/

/-- C9: a pair of particles at exactly identical positions is skipped by
the shared Lennard-Jones pair routine of both force kernels (no force on
either particle, the reciprocal-distance terms are never computed), so the
force arrays are those computed without that pair, and the neighbor list
never records a self pair `(i, i)`. -/
theorem C9_coincident_pair_skipped {α : Type} [LinearOrderedField α]
    [FloorRing α] :
    (∀ (cfg : MDConfig α) (ps : List (Particle α))
        (forces : List (Vec3 α)) (pr : ℕ × ℕ),
        (ps.getD pr.1 defaultParticle).position =
          (ps.getD pr.2 defaultParticle).position →
        applyPair cfg ps forces pr = forces) ∧
      (∀ (cfg : MDConfig α) (ps : List (Particle α))
        (l₁ l₂ : List (ℕ × ℕ)) (pr : ℕ × ℕ),
        (ps.getD pr.1 defaultParticle).position =
          (ps.getD pr.2 defaultParticle).position →
        lj_forces_neighbor_list cfg ps (l₁ ++ pr :: l₂) =
          lj_forces_neighbor_list cfg ps (l₁ ++ l₂)) ∧
      (∀ (cfg : NeighborListConfig α) (positions : List (Vec3 α))
        (p : ℕ × ℕ), p ∈ buildPairs cfg positions → p.1 ≠ p.2) := by
  have hskip : ∀ (cfg : MDConfig α) (ps : List (Particle α))
      (forces : List (Vec3 α)) (pr : ℕ × ℕ),
      (ps.getD pr.1 defaultParticle).position =
        (ps.getD pr.2 defaultParticle).position →
      applyPair cfg ps forces pr = forces := by
    intro cfg ps forces pr h
    unfold applyPair
    rw [if_pos]
    right
    rw [h, sub_self]
    exact norm2_zero_vec
  refine ⟨hskip, ?_, ?_⟩
  · intro cfg ps l₁ l₂ pr h
    unfold lj_forces_neighbor_list
    rw [List.foldl_append, List.foldl_append, List.foldl_cons,
      hskip cfg ps _ pr h]
  · intro cfg positions p hp
    exact (buildPairs_sound cfg positions hp).2.2.1

/-- Witness for C9: two coincident particles produce no pair force, the
neighbor-list kernel ignores their pair, and the concrete recorded pair
`(1, 0)` of the `nlPosA` build has distinct indices. -/
theorem C9_coincident_pair_skipped_witness :
    (([⟨⟨2,3,4⟩, ⟨0,0,0⟩, 1⟩, ⟨⟨2,3,4⟩, ⟨0,0,0⟩, 1⟩] :
        List (Particle ℚ)).getD 0 defaultParticle).position =
      (([⟨⟨2,3,4⟩, ⟨0,0,0⟩, 1⟩, ⟨⟨2,3,4⟩, ⟨0,0,0⟩, 1⟩] :
        List (Particle ℚ)).getD 1 defaultParticle).position ∧
    applyPair (defaultMDConfig (α := ℚ))
        [⟨⟨2,3,4⟩, ⟨0,0,0⟩, 1⟩, ⟨⟨2,3,4⟩, ⟨0,0,0⟩, 1⟩]
        [0, 0] ((0 : ℕ), (1 : ℕ)) = [0, 0] ∧
    lj_forces_neighbor_list (defaultMDConfig (α := ℚ))
        [⟨⟨2,3,4⟩, ⟨0,0,0⟩, 1⟩, ⟨⟨2,3,4⟩, ⟨0,0,0⟩, 1⟩]
        ([] ++ ((0 : ℕ), (1 : ℕ)) :: []) =
      lj_forces_neighbor_list (defaultMDConfig (α := ℚ))
        [⟨⟨2,3,4⟩, ⟨0,0,0⟩, 1⟩, ⟨⟨2,3,4⟩, ⟨0,0,0⟩, 1⟩] ([] ++ []) ∧
    ((1 : ℕ), (0 : ℕ)) ∈ buildPairs nlCfgA nlPosA ∧ (1 : ℕ) ≠ 0 := by
  have hco : (([⟨⟨2,3,4⟩, ⟨0,0,0⟩, 1⟩, ⟨⟨2,3,4⟩, ⟨0,0,0⟩, 1⟩] :
      List (Particle ℚ)).getD 0 defaultParticle).position =
      (([⟨⟨2,3,4⟩, ⟨0,0,0⟩, 1⟩, ⟨⟨2,3,4⟩, ⟨0,0,0⟩, 1⟩] :
        List (Particle ℚ)).getD 1 defaultParticle).position := rfl
  refine ⟨hco, ?_, ?_, nlPosA_pair_mem, ?_⟩
  · exact (C9_coincident_pair_skipped (α := ℚ)).1 _ _ [0, 0] (0, 1) hco
  · exact (C9_coincident_pair_skipped (α := ℚ)).2.1 _ _ [] [] (0, 1) hco
  · exact (C9_coincident_pair_skipped (α := ℚ)).2.2 nlCfgA nlPosA (1, 0)
      nlPosA_pair_mem

end MDSystem

/-! ### The thermostat is not bypassed for a single particle (claim C4) -/

/-- Failing configuration for C4: `nvt` on, neighbor list off, all other
fields at their defaults. -/
noncomputable def c4Cfg : MDConfig ℝ :=
  { defaultMDConfig with nvt := true, use_neighbor_list := false }

/-- One particle of unit mass at the origin with velocity `(1, 0, 0)`. -/
noncomputable def c4Particle : Particle ℝ := ⟨⟨0, 0, 0⟩, ⟨1, 0, 0⟩, 1⟩

/-- C4, divergence witness: with a single particle (`N = 1 < 2`) the
thermostat block still runs — `md_system.cpp` lines 192-203 have no guard
on `N` or on `T` — and after one `integrate` with `dt = 1/10` the
particle's velocity is `sqrt(6/5) · (1, 0, 0)`, not the `(1, 0, 0)` left
by the second half kick, although the claim (and the spec's edge-case
rule) requires the thermostat to do nothing.  (For `T = 0` the same
missing guard divides by zero and in IEEE arithmetic produces NaN
velocities.) -/
theorem C4_thermostat_not_bypassed :
    ((mdIntegrate Real.sqrt (mdSystemNew c4Cfg) [c4Particle]
        (1/10)).map fun r => r.2.map Particle.velocity) =
      some [⟨Real.sqrt (6/5), 0, 0⟩] ∧
    Real.sqrt (6/5) ≠ 1 := by
  constructor
  · have hnew : mdSystemNew c4Cfg = ⟨c4Cfg, none, 0⟩ := rfl
    have hmaint : mdMaintain (⟨c4Cfg, none, 0⟩ : MDState ℝ) [c4Particle] =
        some ⟨c4Cfg, none, 0⟩ := rfl
    have hforce : ∀ p : Particle ℝ,
        computeForces (⟨c4Cfg, none, 0⟩ : MDState ℝ) [p] = [0] := fun p => rfl
    rw [hnew]
    unfold mdIntegrate
    rw [hmaint]
    simp only [hforce]
    have hdrift : halfKickDrift [c4Particle] [0] ((1:ℝ)/10) =
        [⟨⟨1/10, 0, 0⟩, ⟨1, 0, 0⟩, 1⟩] := by
      unfold halfKickDrift c4Particle
      simp only [List.zipWith, Particle.mk.injEq, Vec3.smul_def,
        Vec3.add_def, Vec3.zero_def]
      norm_num
    rw [hdrift, hforce]
    have hkick : halfKick [(⟨⟨1/10, 0, 0⟩, ⟨1, 0, 0⟩, 1⟩ : Particle ℝ)]
        [0] ((1:ℝ)/10) = [⟨⟨1/10, 0, 0⟩, ⟨1, 0, 0⟩, 1⟩] := by
      unfold halfKick
      simp only [List.zipWith, Particle.mk.injEq, Vec3.smul_def,
        Vec3.add_def, Vec3.zero_def]
      norm_num
    rw [hkick]
    unfold berendsen
    have hnvt : c4Cfg.nvt = true := rfl
    have ht : c4Cfg.tau_thermo = 1 := rfl
    have htp : c4Cfg.temp = 1 := rfl
    rw [if_pos hnvt]
    simp only [List.foldl, List.map, Option.map_some, List.length_cons,
      List.length_nil, Vec3.smul_def, Particle.mk.injEq, Vec3.mk.injEq,
      Vec3.norm2, ht, htp]
    have harg : ((1:ℝ) + 1 / 10 / 1 * (1 / (2 / 3 * ((0 + 1 / 2 * 1 *
        ((1:ℝ) * 1 + 0 * 0 + 0 * 0)) / (((0 + 1 : ℕ)) : ℝ))) - 1)) =
        6/5 := by
      norm_num
    rw [harg]
    simp
  · intro h
    have h1 : (Real.sqrt (6/5))^2 = 6/5 := Real.sq_sqrt (by norm_num)
    rw [h] at h1
    norm_num at h1

/-! ### Rigid-body system (`modules/rb/rigid_body_system.cpp`, `.hpp`) -/

section RigidBodySystem

variable {α : Type} [LinearOrderedField α] [FloorRing α]

/-- `struct RigidBody`, `simcore/state/rigid_body.hpp`. -/
structure RigidBody (α : Type) where
  position : Vec3 α
  velocity : Vec3 α
  mass : α
  radius : α
  kinematic : Bool
deriving DecidableEq, Repr

/-- Default member initializers of `RigidBody`. -/
def defaultRigidBody : RigidBody α := ⟨Vec3.zero, Vec3.zero, 1, 1/2, false⟩

/-- `struct RigidBodySystemConfig`, `modules/rb/rigid_body_system.hpp`
lines 6-15, with its default member initializers. -/
structure RigidBodySystemConfig (α : Type) where
  restitution : α
  friction : α
  ground_y : α
  substeps : ℤ
  pair_iterations : ℤ
  penetration_slop : α
  contact_offset : α
  baumgarte : α
deriving DecidableEq, Repr

/-- The defaults of `RigidBodySystemConfig`: `restitution{0.5}`,
`friction{0.3}`, `ground_y{0.0}`, `substeps{2}`, `pair_iterations{16}`,
`penetration_slop{1e-4}`, `contact_offset{1e-4}`, `baumgarte{1.0}`. -/
def defaultRigidBodySystemConfig : RigidBodySystemConfig α :=
  { restitution := 1/2
    friction := 3/10
    ground_y := 0
    substeps := 2
    pair_iterations := 16
    penetration_slop := 1/10^4
    contact_offset := 1/10^4
    baumgarte := 1 }

/-- Step 1 of a substep (`rigid_body_system.cpp` lines 31-47): integrate a
non-kinematic, positive-mass body under gravity and clamp it at the ground
plane; kinematic or nonpositive-mass bodies are skipped. -/
def rbIntegrateClamp (cfg : RigidBodySystemConfig α) (gravity : Vec3 α)
    (h : α) (rb : RigidBody α) : RigidBody α :=
  if rb.kinematic = true ∨ rb.mass ≤ 0 then rb
  else
    let v1 := rb.velocity + h • gravity
    let x1 := rb.position + h • v1
    let target := cfg.ground_y + rb.radius + cfg.contact_offset
    if x1.y < target then
      if v1.y < 0 then
        { rb with
          position := ⟨x1.x, target, x1.z⟩
          velocity := ⟨v1.x * (98/100), -cfg.restitution * v1.y,
            v1.z * (98/100)⟩ }
      else { rb with position := ⟨x1.x, target, x1.z⟩, velocity := v1 }
    else { rb with position := x1, velocity := v1 }

/-- Step 4 of a substep (lines 136-147): the terminal ground clamp, run
for every body with no kinematic or mass guard. -/
def rbFinalClamp (cfg : RigidBodySystemConfig α) (rb : RigidBody α) :
    RigidBody α :=
  let target := cfg.ground_y + rb.radius + cfg.contact_offset
  if rb.position.y < target then
    if rb.velocity.y < 0 then
      { rb with
        position := ⟨rb.position.x, target, rb.position.z⟩
        velocity := ⟨rb.velocity.x * (98/100),
          -cfg.restitution * rb.velocity.y, rb.velocity.z * (98/100)⟩ }
    else { rb with position := ⟨rb.position.x, target, rb.position.z⟩ }
  else rb

/-- `cell_of` (lines 56-60): `std::floor` of each coordinate over the
broad-phase cell size. -/
def rbCellOf (cellSize : α) (p : Vec3 α) : ℤ × ℤ × ℤ :=
  (⌊p.x / cellSize⌋, ⌊p.y / cellSize⌋, ⌊p.z / cellSize⌋)

/-- The hash grid rebuilt at the start of each resolution iteration
(lines 66-71): bodies are pushed in index order, keyed by their cell. -/
def rbGrid (cellSize : α) (bodies : List (RigidBody α)) :
    ℤ × ℤ × ℤ → List ℕ :=
  fun k => (List.range bodies.length).filter
    fun i => decide (rbCellOf cellSize ((bodies.getD i defaultRigidBody).position) = k)

/-- In-place update of one body's position, reading the current value
(models a write through the `auto&` references of the pair loop). -/
def rbMapPos (s : List (RigidBody α)) (i : ℕ) (f : Vec3 α → Vec3 α) :
    List (RigidBody α) :=
  s.set i { s.getD i defaultRigidBody with
    position := f ((s.getD i defaultRigidBody).position) }

/-- In-place update of one body's velocity, reading the current value. -/
def rbMapVel (s : List (RigidBody α)) (i : ℕ) (f : Vec3 α → Vec3 α) :
    List (RigidBody α) :=
  s.set i { s.getD i defaultRigidBody with
    velocity := f ((s.getD i defaultRigidBody).velocity) }

/-- The write phase of one resolved pair (lines 116-127): guarded
positional corrections, then, when the bodies approach (`doImpulse`),
guarded normal impulses followed by the unconditional 0.999 damp of both
velocities.  The static flags and scalars are computed by the caller. -/
def rbApplyPair (s : List (RigidBody α)) (i j : ℕ)
    (aStatic bStatic doImpulse : Prop)
    [Decidable aStatic] [Decidable bStatic] [Decidable doImpulse]
    (invMa invMb : α) (corr impulse : Vec3 α) : List (RigidBody α) :=
  let s1 := if aStatic then s else rbMapPos s i fun p => p - invMa • corr
  let s2 := if bStatic then s1 else rbMapPos s1 j fun p => p + invMb • corr
  if doImpulse then
    let s3 := if aStatic then s2 else
      rbMapVel s2 i fun v => v - invMa • impulse
    let s4 := if bStatic then s3 else
      rbMapVel s3 j fun v => v + invMb • impulse
    let s5 := rbMapVel s4 i fun v => (999/1000) • v
    rbMapVel s5 j fun v => (999/1000) • v
  else s2

/-- One candidate pair of the resolution loop (lines 85-127): positional
Baumgarte correction, normal impulse when approaching, and the
unconditional 0.999 velocity damp on both bodies after an impulse.  The
state is the body list with the running maximum penetration. -/
def rbProcessPair (sqrtFn : α → α) (cfg : RigidBodySystemConfig α)
    (s : List (RigidBody α) × α) (i j : ℕ) : List (RigidBody α) × α :=
  let a := s.1.getD i defaultRigidBody
  let b := s.1.getD j defaultRigidBody
  let min_dist := a.radius + b.radius
  let d := b.position - a.position
  let d2 := d.norm2
  let target_sep := min_dist + cfg.contact_offset
  if d2 ≥ target_sep * target_sep then s
  else
    let dist := sqrtFn (max d2 (1/10^16))
    let nvec := if dist > 1/10^12 then d.divs dist else Vec3.unitX
    let pen := max (target_sep - dist) 0
    let mp := max pen s.2
    let aGround := a.position.y - a.radius ≤
      cfg.ground_y + cfg.contact_offset + 1/10^6
    let bGround := b.position.y - b.radius ≤
      cfg.ground_y + cfg.contact_offset + 1/10^6
    let aStatic := a.kinematic = true ∨ a.mass ≤ 0 ∨
      (aGround ∧ nvec.y > 2/10)
    let bStatic := b.kinematic = true ∨ b.mass ≤ 0 ∨
      (bGround ∧ nvec.y < -(2/10))
    let invMa := if aStatic then 0 else 1 / a.mass
    let invMb := if bStatic then 0 else 1 / b.mass
    let invSum := invMa + invMb
    if invSum ≤ 0 then (s.1, mp)
    else
      let corr := ((cfg.baumgarte * pen) / invSum) • nvec
      let relv := b.velocity - a.velocity
      let vn := relv.dot nvec
      let jimp := -(1 + cfg.restitution) * vn / invSum
      (rbApplyPair s.1 i j aStatic bStatic (vn < 0) invMa invMb corr
        (jimp • nvec), mp)

/-- The `dx/dy/dz` offsets of the 27-cell stencil in source iteration
order (lines 78-80: `dx` outer, then `dy`, then `dz`). -/
def rbOffsets : List (ℤ × ℤ × ℤ) :=
  ([-1, 0, 1] : List ℤ).flatMap fun dx =>
    ([-1, 0, 1] : List ℤ).flatMap fun dy =>
      ([-1, 0, 1] : List ℤ).map fun dz => (dx, dy, dz)

/-- One resolution iteration (lines 65-131): rebuild the grid from the
current state, then for each body index, scan the stencil around its
current cell in the grid built at iteration start, resolving each pair
`j > i` in turn. -/
def rbIter (sqrtFn : α → α) (cfg : RigidBodySystemConfig α)
    (cellSize : α) (bodies : List (RigidBody α)) :
    List (RigidBody α) × α :=
  let grid := rbGrid cellSize bodies
  (List.range bodies.length).foldl
    (fun s i =>
      let ka := rbCellOf cellSize ((s.1.getD i defaultRigidBody).position)
      rbOffsets.foldl
        (fun s d =>
          (grid (ka.1 + d.1, ka.2.1 + d.2.1, ka.2.2 + d.2.2)).foldl
            (fun s j => if i < j then rbProcessPair sqrtFn cfg s i j else s)
            s)
        s)
    (bodies, 0)

/-- The bounded resolution loop with the early out
(line 132: `if (max_pen < tol) break`). -/
def rbIterLoop (sqrtFn : α → α) (cfg : RigidBodySystemConfig α)
    (cellSize tol : α) :
    ℕ → List (RigidBody α) → List (RigidBody α)
  | 0, bodies => bodies
  | k + 1, bodies =>
    let r := rbIter sqrtFn cfg cellSize bodies
    if r.2 < tol then r.1
    else rbIterLoop sqrtFn cfg cellSize tol k r.1

/-- One internal substep (lines 31-148): integrate and clamp, broad-phase
cell size from the maximum radius (skipping resolution entirely when no
body has positive radius), bounded pair resolution, terminal clamp. -/
def rbSubstep (sqrtFn : α → α) (cfg : RigidBodySystemConfig α)
    (gravity : Vec3 α) (h : α) (bodies : List (RigidBody α)) :
    List (RigidBody α) :=
  let s1 := bodies.map (rbIntegrateClamp cfg gravity h)
  let maxR := s1.foldl (fun m rb => max m rb.radius) 0
  let s2 :=
    if maxR > 0 then
      let cellSize := max (2 * maxR) (1/10^6)
      let maxIters := max 1 cfg.pair_iterations
      let tol := max 0 cfg.penetration_slop
      rbIterLoop sqrtFn cfg cellSize tol maxIters.toNat s1
    else s1
  s2.map (rbFinalClamp cfg)

/-- `RigidBodySystem::step` (lines 12-149): `max(1, substeps)` equal
substeps of `dt / substeps`. -/
def rbStep (sqrtFn : α → α) (cfg : RigidBodySystemConfig α)
    (gravity : Vec3 α) (bodies : List (RigidBody α)) (dt : α) :
    List (RigidBody α) :=
  let substeps := max 1 cfg.substeps
  let h := dt / ((substeps : ℤ) : α)
  Nat.iterate (rbSubstep sqrtFn cfg gravity h) substeps.toNat bodies

/-! ### Kinematic bodies through one rigid-body step (claim C3) -/

theorem getD_set_of_ne {β : Type} (l : List β) {i k : ℕ} (h : i ≠ k)
    (v d : β) : (l.set i v).getD k d = l.getD k d := by
  simp [List.getD, List.getElem?_set_ne h]

theorem getD_set_self {β : Type} (l : List β) {i : ℕ} (h : i < l.length)
    (v d : β) : (l.set i v).getD i d = v := by
  rw [List.getD_eq_getElem _ _ (by simpa using h)]
  simp

/-- Shape invariant: same length and identical `kinematic`, `radius` and
`mass` fields at every index. -/
def SameShape (s t : List (RigidBody α)) : Prop :=
  t.length = s.length ∧ ∀ k : ℕ,
    (t.getD k defaultRigidBody).kinematic =
      (s.getD k defaultRigidBody).kinematic ∧
    (t.getD k defaultRigidBody).radius =
      (s.getD k defaultRigidBody).radius ∧
    (t.getD k defaultRigidBody).mass = (s.getD k defaultRigidBody).mass

/-- Positions of kinematic bodies are untouched. -/
def KinFrozen (s t : List (RigidBody α)) : Prop :=
  ∀ k : ℕ, (s.getD k defaultRigidBody).kinematic = true →
    (t.getD k defaultRigidBody).position =
      (s.getD k defaultRigidBody).position

theorem sameShape_refl (s : List (RigidBody α)) : SameShape s s :=
  ⟨rfl, fun _ => ⟨rfl, rfl, rfl⟩⟩

theorem sameShape_trans {s t u : List (RigidBody α)} (h1 : SameShape s t)
    (h2 : SameShape t u) : SameShape s u := by
  refine ⟨h2.1.trans h1.1, fun k => ?_⟩
  obtain ⟨a1, a2, a3⟩ := h1.2 k
  obtain ⟨b1, b2, b3⟩ := h2.2 k
  exact ⟨b1.trans a1, b2.trans a2, b3.trans a3⟩

theorem kinFrozen_refl (s : List (RigidBody α)) : KinFrozen s s :=
  fun _ _ => rfl

theorem kinFrozen_trans {s t u : List (RigidBody α)} (hst : SameShape s t)
    (h1 : KinFrozen s t) (h2 : KinFrozen t u) : KinFrozen s u := by
  intro k hk
  have hk' : (t.getD k defaultRigidBody).kinematic = true := by
    rw [(hst.2 k).1]; exact hk
  exact (h2 k hk').trans (h1 k hk)

theorem sameShape_set {s : List (RigidBody α)} {i : ℕ} {v : RigidBody α}
    (hkin : v.kinematic = (s.getD i defaultRigidBody).kinematic)
    (hrad : v.radius = (s.getD i defaultRigidBody).radius)
    (hmass : v.mass = (s.getD i defaultRigidBody).mass) :
    SameShape s (s.set i v) := by
  refine ⟨List.length_set _ _ _, fun k => ?_⟩
  by_cases hik : i = k
  · subst hik
    by_cases hlen : i < s.length
    · rw [getD_set_self s hlen]
      exact ⟨hkin, hrad, hmass⟩
    · rw [List.set_eq_of_length_le (by omega)]
      exact ⟨rfl, rfl, rfl⟩
  · rw [getD_set_of_ne s hik]
    exact ⟨rfl, rfl, rfl⟩

theorem kinFrozen_set_of_pos {s : List (RigidBody α)} {i : ℕ}
    {v : RigidBody α}
    (hpos : v.position = (s.getD i defaultRigidBody).position) :
    KinFrozen s (s.set i v) := by
  intro k _
  by_cases hik : i = k
  · subst hik
    by_cases hlen : i < s.length
    · rw [getD_set_self s hlen]
      exact hpos
    · rw [List.set_eq_of_length_le (by omega)]
  · rw [getD_set_of_ne s hik]

theorem kinFrozen_set_of_not_kin {s : List (RigidBody α)} {i : ℕ}
    {v : RigidBody α}
    (hnk : ¬((s.getD i defaultRigidBody).kinematic = true)) :
    KinFrozen s (s.set i v) := by
  intro k hk
  by_cases hik : i = k
  · subst hik
    exact absurd hk hnk
  · rw [getD_set_of_ne s hik]

/-- Both invariants bundled: the state `t` has the same shape as `s` and
moves no kinematic body of `s`. -/
def Preserves (s t : List (RigidBody α)) : Prop :=
  SameShape s t ∧ KinFrozen s t

theorem preserves_refl (s : List (RigidBody α)) : Preserves s s :=
  ⟨sameShape_refl s, kinFrozen_refl s⟩

theorem preserves_trans {s t u : List (RigidBody α)} (h1 : Preserves s t)
    (h2 : Preserves t u) : Preserves s u :=
  ⟨sameShape_trans h1.1 h2.1, kinFrozen_trans h1.1 h1.2 h2.2⟩

theorem preserves_rbMapVel (s : List (RigidBody α)) (i : ℕ)
    (f : Vec3 α → Vec3 α) : Preserves s (rbMapVel s i f) :=
  ⟨sameShape_set rfl rfl rfl, kinFrozen_set_of_pos rfl⟩

theorem preserves_rbMapPos_of_not_kin {s : List (RigidBody α)} {i : ℕ}
    (f : Vec3 α → Vec3 α)
    (h : ¬((s.getD i defaultRigidBody).kinematic = true)) :
    Preserves s (rbMapPos s i f) :=
  ⟨sameShape_set rfl rfl rfl, kinFrozen_set_of_not_kin h⟩

/-- The pair write phase preserves the shape and never moves a kinematic
body, provided the static flags subsume the kinematic flags (which they
do in the source: `a_static = a.kinematic || ...`). -/
theorem rbApplyPair_preserve (s : List (RigidBody α)) (i j : ℕ)
    (aStatic bStatic doImpulse : Prop)
    [Decidable aStatic] [Decidable bStatic] [Decidable doImpulse]
    (invMa invMb : α) (corr impulse : Vec3 α)
    (hA : (s.getD i defaultRigidBody).kinematic = true → aStatic)
    (hB : (s.getD j defaultRigidBody).kinematic = true → bStatic) :
    Preserves s
      (rbApplyPair s i j aStatic bStatic doImpulse invMa invMb corr
        impulse) := by
  simp only [rbApplyPair]
  have h1 : Preserves s
      (if aStatic then s else rbMapPos s i fun p => p - invMa • corr) := by
    by_cases hAs : aStatic
    · rw [if_pos hAs]; exact preserves_refl s
    · rw [if_neg hAs]
      exact preserves_rbMapPos_of_not_kin _ fun hk => hAs (hA hk)
  set t1 := if aStatic then s else rbMapPos s i fun p => p - invMa • corr
    with ht1
  have h2 : Preserves s
      (if bStatic then t1 else rbMapPos t1 j fun p => p + invMb • corr) := by
    by_cases hBs : bStatic
    · rw [if_pos hBs]; exact h1
    · rw [if_neg hBs]
      refine preserves_trans h1 (preserves_rbMapPos_of_not_kin _ ?_)
      intro hk
      rw [(h1.1.2 j).1] at hk
      exact hBs (hB hk)
  set t2 := if bStatic then t1 else rbMapPos t1 j fun p => p + invMb • corr
    with ht2
  by_cases hImp : doImpulse
  · rw [if_pos hImp]
    have h3 : Preserves s
        (if aStatic then t2 else
          rbMapVel t2 i fun v => v - invMa • impulse) := by
      by_cases hAs : aStatic
      · rw [if_pos hAs]; exact h2
      · rw [if_neg hAs]
        exact preserves_trans h2 (preserves_rbMapVel _ _ _)
    set t3 := if aStatic then t2 else
      rbMapVel t2 i fun v => v - invMa • impulse with ht3
    have h4 : Preserves s
        (if bStatic then t3 else
          rbMapVel t3 j fun v => v + invMb • impulse) := by
      by_cases hBs : bStatic
      · rw [if_pos hBs]; exact h3
      · rw [if_neg hBs]
        exact preserves_trans h3 (preserves_rbMapVel _ _ _)
    set t4 := if bStatic then t3 else
      rbMapVel t3 j fun v => v + invMb • impulse with ht4
    exact preserves_trans h4 (preserves_trans
      (preserves_rbMapVel t4 i fun v => (999/1000) • v)
      (preserves_rbMapVel _ j fun v => (999/1000) • v))
  · rw [if_neg hImp]
    exact h2

/-- `rbProcessPair` preserves the shape and never moves a kinematic
body: positional corrections are guarded by the static classification,
which includes the kinematic flag; the unguarded writes (the 0.999 damp)
touch only velocities. -/
theorem rbProcessPair_preserve (sqrtFn : α → α)
    (cfg : RigidBodySystemConfig α) (s : List (RigidBody α) × α)
    (i j : ℕ) :
    Preserves s.1 (rbProcessPair sqrtFn cfg s i j).1 := by
  simp only [rbProcessPair]
  split
  · exact preserves_refl _
  · repeat' split
    all_goals
      first
      | exact preserves_refl _
      | (apply rbApplyPair_preserve <;> exact fun hk => Or.inl hk)

theorem foldl_preserve {β : Type}
    (f : List (RigidBody α) × α → β → List (RigidBody α) × α)
    (l : List β) (hf : ∀ s b, Preserves s.1 (f s b).1) :
    ∀ s : List (RigidBody α) × α, Preserves s.1 (l.foldl f s).1 := by
  induction l with
  | nil => intro s; exact preserves_refl _
  | cons b l ih =>
    intro s
    rw [List.foldl_cons]
    exact preserves_trans (hf s b) (ih (f s b))

/-- A whole resolution iteration preserves the shape and the positions
of kinematic bodies. -/
theorem rbIter_preserve (sqrtFn : α → α) (cfg : RigidBodySystemConfig α)
    (cellSize : α) (bodies : List (RigidBody α)) :
    Preserves bodies (rbIter sqrtFn cfg cellSize bodies).1 := by
  simp only [rbIter]
  refine foldl_preserve _ _ ?_ (bodies, 0)
  intro s i
  refine foldl_preserve _ _ ?_ s
  intro s' d
  refine foldl_preserve _ _ ?_ s'
  intro s'' j
  dsimp only
  split
  · exact rbProcessPair_preserve sqrtFn cfg s'' i j
  · exact preserves_refl _

/-- The bounded resolution loop preserves the shape and the positions of
kinematic bodies. -/
theorem rbIterLoop_preserve (sqrtFn : α → α)
    (cfg : RigidBodySystemConfig α) (cellSize tol : α) :
    ∀ (k : ℕ) (bodies : List (RigidBody α)),
      Preserves bodies (rbIterLoop sqrtFn cfg cellSize tol k bodies) := by
  intro k
  induction k with
  | zero => intro bodies; exact preserves_refl _
  | succ k ih =>
    intro bodies
    simp only [rbIterLoop]
    split
    · exact rbIter_preserve sqrtFn cfg cellSize bodies
    · exact preserves_trans (rbIter_preserve sqrtFn cfg cellSize bodies)
        (ih _)

theorem rbIntegrateClamp_kin (cfg : RigidBodySystemConfig α)
    (gravity : Vec3 α) (h : α) (rb : RigidBody α)
    (hk : rb.kinematic = true) :
    rbIntegrateClamp cfg gravity h rb = rb := by
  simp only [rbIntegrateClamp]
  rw [if_pos (Or.inl hk)]

theorem rbIntegrateClamp_fields (cfg : RigidBodySystemConfig α)
    (gravity : Vec3 α) (h : α) (rb : RigidBody α) :
    (rbIntegrateClamp cfg gravity h rb).kinematic = rb.kinematic ∧
      (rbIntegrateClamp cfg gravity h rb).radius = rb.radius ∧
      (rbIntegrateClamp cfg gravity h rb).mass = rb.mass := by
  simp only [rbIntegrateClamp]
  split_ifs <;> exact ⟨rfl, rfl, rfl⟩

theorem rbFinalClamp_fields (cfg : RigidBodySystemConfig α)
    (rb : RigidBody α) :
    (rbFinalClamp cfg rb).kinematic = rb.kinematic ∧
      (rbFinalClamp cfg rb).radius = rb.radius ∧
      (rbFinalClamp cfg rb).mass = rb.mass := by
  simp only [rbFinalClamp]
  split_ifs <;> exact ⟨rfl, rfl, rfl⟩

theorem rbFinalClamp_of_ge (cfg : RigidBodySystemConfig α)
    (rb : RigidBody α)
    (h : ¬(rb.position.y < cfg.ground_y + rb.radius + cfg.contact_offset)) :
    rbFinalClamp cfg rb = rb := by
  simp only [rbFinalClamp]
  rw [if_neg h]

theorem getD_map_lt {β γ : Type} (l : List β) (f : β → γ) {k : ℕ}
    (h : k < l.length) (d : γ) (d' : β) :
    (l.map f).getD k d = f (l.getD k d') := by
  rw [List.getD_eq_getElem _ _ (by simpa using h),
    List.getD_eq_getElem _ _ h]
  simp

/-- Mapping a function that keeps the shape fields and fixes kinematic
bodies preserves both invariants. -/
theorem preserves_map (bodies : List (RigidBody α))
    (f : RigidBody α → RigidBody α)
    (hfields : ∀ rb, (f rb).kinematic = rb.kinematic ∧
      (f rb).radius = rb.radius ∧ (f rb).mass = rb.mass)
    (hkin : ∀ rb, rb.kinematic = true → f rb = rb) :
    Preserves bodies (bodies.map f) := by
  constructor
  · refine ⟨List.length_map _ _, fun k => ?_⟩
    by_cases hlen : k < bodies.length
    · rw [getD_map_lt bodies f hlen defaultRigidBody defaultRigidBody]
      exact hfields _
    · rw [List.getD_eq_default _ _ (by simpa using le_of_not_lt hlen),
        List.getD_eq_default _ _ (le_of_not_lt hlen)]
      exact ⟨rfl, rfl, rfl⟩
  · intro k hk
    by_cases hlen : k < bodies.length
    · rw [getD_map_lt bodies f hlen defaultRigidBody defaultRigidBody,
        hkin _ hk]
    · rw [List.getD_eq_default _ _ (by simpa using le_of_not_lt hlen),
        List.getD_eq_default _ _ (le_of_not_lt hlen)]

/-- One substep keeps a kinematic body that is at or above its clamp
height exactly in place (and keeps its flag and radius). -/
theorem rbSubstep_kin_fixed (sqrtFn : α → α)
    (cfg : RigidBodySystemConfig α) (gravity : Vec3 α) (h : α)
    (bodies : List (RigidBody α)) (k : ℕ)
    (hk : (bodies.getD k defaultRigidBody).kinematic = true)
    (hy : cfg.ground_y + (bodies.getD k defaultRigidBody).radius +
        cfg.contact_offset ≤ (bodies.getD k defaultRigidBody).position.y) :
    ((rbSubstep sqrtFn cfg gravity h bodies).getD k
        defaultRigidBody).kinematic = true ∧
      ((rbSubstep sqrtFn cfg gravity h bodies).getD k
        defaultRigidBody).radius =
        (bodies.getD k defaultRigidBody).radius ∧
      ((rbSubstep sqrtFn cfg gravity h bodies).getD k
        defaultRigidBody).position =
        (bodies.getD k defaultRigidBody).position := by
  have hlen : k < bodies.length := by
    by_contra hge
    rw [List.getD_eq_default _ _ (le_of_not_lt hge)] at hk
    simp [defaultRigidBody] at hk
  have hP1 : Preserves bodies (bodies.map (rbIntegrateClamp cfg gravity h)) :=
    preserves_map bodies _ (rbIntegrateClamp_fields cfg gravity h)
      (rbIntegrateClamp_kin cfg gravity h)
  simp only [rbSubstep]
  suffices hgen : ∀ t, Preserves bodies t →
      ((t.map (rbFinalClamp cfg)).getD k defaultRigidBody).kinematic
        = true ∧
      ((t.map (rbFinalClamp cfg)).getD k defaultRigidBody).radius =
        (bodies.getD k defaultRigidBody).radius ∧
      ((t.map (rbFinalClamp cfg)).getD k defaultRigidBody).position =
        (bodies.getD k defaultRigidBody).position by
    refine hgen _ ?_
    split
    · exact preserves_trans hP1 (rbIterLoop_preserve sqrtFn cfg _ _ _ _)
    · exact hP1
  intro t hPt
  have hklen : k < t.length := by rw [hPt.1.1]; exact hlen
  have hkin_t : (t.getD k defaultRigidBody).kinematic = true := by
    rw [(hPt.1.2 k).1]; exact hk
  have hrad_t : (t.getD k defaultRigidBody).radius =
      (bodies.getD k defaultRigidBody).radius := (hPt.1.2 k).2.1
  have hpos_t : (t.getD k defaultRigidBody).position =
      (bodies.getD k defaultRigidBody).position := hPt.2 k hk
  rw [getD_map_lt t _ hklen defaultRigidBody defaultRigidBody,
    rbFinalClamp_of_ge cfg _ (by rw [hpos_t, hrad_t]; exact not_lt.mpr hy)]
  exact ⟨hkin_t, hrad_t, hpos_t⟩

/-- Iterating substeps keeps such a body fixed. -/
theorem rbSubstep_iterate_kin (sqrtFn : α → α)
    (cfg : RigidBodySystemConfig α) (gravity : Vec3 α) (h : α) (k : ℕ) :
    ∀ (n : ℕ) (bodies : List (RigidBody α)),
      (bodies.getD k defaultRigidBody).kinematic = true →
      cfg.ground_y + (bodies.getD k defaultRigidBody).radius +
          cfg.contact_offset ≤
        (bodies.getD k defaultRigidBody).position.y →
      ((Nat.iterate (rbSubstep sqrtFn cfg gravity h) n bodies).getD k
          defaultRigidBody).kinematic = true ∧
        ((Nat.iterate (rbSubstep sqrtFn cfg gravity h) n bodies).getD k
          defaultRigidBody).radius =
          (bodies.getD k defaultRigidBody).radius ∧
        ((Nat.iterate (rbSubstep sqrtFn cfg gravity h) n bodies).getD k
          defaultRigidBody).position =
          (bodies.getD k defaultRigidBody).position := by
  intro n
  induction n with
  | zero => intro bodies hk hy; exact ⟨hk, rfl, rfl⟩
  | succ n ih =>
    intro bodies hk hy
    rw [Function.iterate_succ_apply]
    obtain ⟨h1, h2, h3⟩ :=
      rbSubstep_kin_fixed sqrtFn cfg gravity h bodies k hk hy
    obtain ⟨g1, g2, g3⟩ :=
      ih (rbSubstep sqrtFn cfg gravity h bodies) h1 (by rw [h2, h3]; exact hy)
    exact ⟨g1, g2.trans h2, g3.trans h3⟩

theorem foldl_id_of_mem {β γ : Type} (f : γ → β → γ) (l : List β)
    (h : ∀ b ∈ l, ∀ c, f c b = c) : ∀ c, l.foldl f c = c := by
  induction l with
  | nil => intro c; rfl
  | cons b l ih =>
    intro c
    rw [List.foldl_cons, h b (List.mem_cons_self b l)]
    exact ih (fun b' hb' => h b' (List.mem_cons_of_mem b hb')) c

/-- With a single body there is no pair `j > i`, so a resolution
iteration is the identity and reports zero penetration. -/
theorem rbIter_singleton (sqrtFn : α → α) (cfg : RigidBodySystemConfig α)
    (cellSize : α) (rb : RigidBody α) :
    rbIter sqrtFn cfg cellSize [rb] = ([rb], 0) := by
  simp only [rbIter]
  rw [show List.range ([rb] : List (RigidBody α)).length = [0] from rfl,
    List.foldl_cons, List.foldl_nil]
  dsimp only
  refine foldl_id_of_mem _ _ ?_ _
  intro d _ s
  dsimp only
  refine foldl_id_of_mem _ _ ?_ s
  intro j hj s'
  have hj0 : j = 0 := by
    simp only [rbGrid, List.mem_filter, List.mem_range,
      List.length_cons, List.length_nil] at hj
    omega
  rw [hj0, if_neg (lt_irrefl 0)]

theorem rbIterLoop_singleton (sqrtFn : α → α)
    (cfg : RigidBodySystemConfig α) (cellSize tol : α) (rb : RigidBody α) :
    ∀ k : ℕ, rbIterLoop sqrtFn cfg cellSize tol k [rb] = [rb] := by
  intro k
  induction k with
  | zero => rfl
  | succ k ih =>
    simp only [rbIterLoop, rbIter_singleton]
    split
    · rfl
    · exact ih

/-- A substep on a single kinematic body reduces to the final ground
clamp: integration skips it, and resolution has no pairs. -/
theorem rbSubstep_singleton_kin (sqrtFn : α → α)
    (cfg : RigidBodySystemConfig α) (gravity : Vec3 α) (h : α)
    (rb : RigidBody α) (hk : rb.kinematic = true) :
    rbSubstep sqrtFn cfg gravity h [rb] = [rbFinalClamp cfg rb] := by
  simp only [rbSubstep, List.map_cons, List.map_nil,
    rbIntegrateClamp_kin cfg gravity h rb hk]
  split
  · rw [rbIterLoop_singleton]
    rfl
  · rfl

/-- A kinematic body resting below the ground clamp height: radius 1/2
(the default) and center at y = -5. -/
def c3Body : RigidBody ℚ :=
  { defaultRigidBody with kinematic := true, position := ⟨0, -5, 0⟩ }

/-- A kinematic body at or above the ground clamp height. -/
def c3AboveBody : RigidBody ℚ :=
  { defaultRigidBody with kinematic := true, position := ⟨0, 1, 0⟩ }

/-- C3 counterexample: a single kinematic body with its center below the
ground is teleported up to the clamp height by the unguarded final
ground clamp of the very first substep, so a rigid-body step does move a
kinematic body. -/
theorem C3_counterexample :
    c3Body.kinematic = true ∧
    ((rbStep (fun x : ℚ => x) defaultRigidBodySystemConfig
        ⟨0, -981/100, 0⟩ [c3Body] 1).getD 0 defaultRigidBody).position ≠
      c3Body.position := by
  constructor
  · rfl
  · have hsub :
        (max 1 (defaultRigidBodySystemConfig :
          RigidBodySystemConfig ℚ).substeps).toNat = 2 := by
      norm_num [defaultRigidBodySystemConfig]
      decide
    have hit : ∀ (f : List (RigidBody ℚ) → List (RigidBody ℚ))
        (x : List (RigidBody ℚ)), Nat.iterate f 2 x = f (f x) :=
      fun f x => rfl
    have hk2 : (rbFinalClamp (defaultRigidBodySystemConfig :
        RigidBodySystemConfig ℚ) c3Body).kinematic = true := by
      rw [(rbFinalClamp_fields _ _).1]
      rfl
    simp only [rbStep]
    rw [hsub, hit, rbSubstep_singleton_kin _ _ _ _ c3Body (by simp [c3Body]),
      rbSubstep_singleton_kin _ _ _ _ _ hk2, List.getD_cons_zero]
    norm_num [rbFinalClamp, c3Body, defaultRigidBody,
      defaultRigidBodySystemConfig, Vec3.zero, Vec3.mk.injEq]

/-- C3 (amended): a rigid-body step never moves a kinematic body whose
center starts at or above its ground clamp height
`ground_y + radius + contact_offset`, and leaves its kinematic flag set;
kinematic bodies below that height can be moved by the unguarded final
ground clamp, and their velocities can be changed by the 0.999
post-impulse damp. -/
theorem C3_kinematic_position_preserved {α : Type} [LinearOrderedField α]
    [FloorRing α] (sqrtFn : α → α) (cfg : RigidBodySystemConfig α)
    (gravity : Vec3 α) (bodies : List (RigidBody α)) (dt : α) (k : ℕ)
    (hk : (bodies.getD k defaultRigidBody).kinematic = true)
    (hy : cfg.ground_y + (bodies.getD k defaultRigidBody).radius +
        cfg.contact_offset ≤ (bodies.getD k defaultRigidBody).position.y) :
    ((rbStep sqrtFn cfg gravity bodies dt).getD k
        defaultRigidBody).position =
      (bodies.getD k defaultRigidBody).position ∧
    ((rbStep sqrtFn cfg gravity bodies dt).getD k
        defaultRigidBody).kinematic = true := by
  simp only [rbStep]
  obtain ⟨h1, _, h3⟩ := rbSubstep_iterate_kin sqrtFn cfg gravity _ k
    (max 1 cfg.substeps).toNat bodies hk hy
  exact ⟨h3, h1⟩

/-- C3 witness: a kinematic body resting at y = 1, above its clamp
height 0.5001, stays exactly in place over a full default step. -/
theorem C3_kinematic_position_preserved_witness :
    ((rbStep (fun x : ℚ => x) defaultRigidBodySystemConfig
        ⟨0, -981/100, 0⟩ [c3AboveBody] 1).getD 0
        defaultRigidBody).position =
      ([c3AboveBody].getD 0 defaultRigidBody).position ∧
    ((rbStep (fun x : ℚ => x) defaultRigidBodySystemConfig
        ⟨0, -981/100, 0⟩ [c3AboveBody] 1).getD 0
        defaultRigidBody).kinematic = true :=
  C3_kinematic_position_preserved _ _ _ _ _ 0 rfl
    (by norm_num [c3AboveBody, defaultRigidBody,
      defaultRigidBodySystemConfig, List.getD_cons_zero])

/-- C7 counterexample: the defaults named in the claim do not match the
initializers of `RigidBodySystemConfig` (already `substeps` differs:
the header says 2, not 4). -/
theorem C7_counterexample :
    ¬((defaultRigidBodySystemConfig : RigidBodySystemConfig ℚ).substeps
        = 4 ∧
      (defaultRigidBodySystemConfig :
        RigidBodySystemConfig ℚ).pair_iterations = 32 ∧
      (defaultRigidBodySystemConfig :
        RigidBodySystemConfig ℚ).penetration_slop = 1/10^5 ∧
      (defaultRigidBodySystemConfig :
        RigidBodySystemConfig ℚ).contact_offset = 1/10^3 ∧
      (defaultRigidBodySystemConfig :
        RigidBodySystemConfig ℚ).baumgarte = 8/10 ∧
      (defaultRigidBodySystemConfig :
        RigidBodySystemConfig ℚ).restitution = 1/2) := by
  intro h
  have h1 := h.1
  norm_num [defaultRigidBodySystemConfig] at h1

/-- C7 (amended): the default member initializers of
`RigidBodySystemConfig` are restitution 0.5, friction 0.3, ground_y 0,
substeps 2, pair_iterations 16, penetration_slop 1e-4,
contact_offset 1e-4, baumgarte 1. -/
theorem C7_default_config {α : Type} [LinearOrderedField α]
    [FloorRing α] :
    (defaultRigidBodySystemConfig : RigidBodySystemConfig α).restitution
        = 1/2 ∧
      (defaultRigidBodySystemConfig :
        RigidBodySystemConfig α).friction = 3/10 ∧
      (defaultRigidBodySystemConfig :
        RigidBodySystemConfig α).ground_y = 0 ∧
      (defaultRigidBodySystemConfig :
        RigidBodySystemConfig α).substeps = 2 ∧
      (defaultRigidBodySystemConfig :
        RigidBodySystemConfig α).pair_iterations = 16 ∧
      (defaultRigidBodySystemConfig :
        RigidBodySystemConfig α).penetration_slop = 1/10^4 ∧
      (defaultRigidBodySystemConfig :
        RigidBodySystemConfig α).contact_offset = 1/10^4 ∧
      (defaultRigidBodySystemConfig :
        RigidBodySystemConfig α).baumgarte = 1 :=
  ⟨rfl, rfl, rfl, rfl, rfl, rfl, rfl, rfl⟩

end RigidBodySystem

/-!
## The scene overlap pre-pass

`src/simcore/utils/overlap_checker.hpp`, `resolve_initial_overlaps`
(lines 50-103): for up to `max_iterations` passes over all pairs
`i < j`, push apart any pair whose buffered overlap
`a.radius + b.radius + 1e-3 - dist` exceeds `1e-6`, where
`dist = sqrt(max(|b.pos - a.pos|^2, 1e-16))`; stop once a pass sees
every overlap below `1e-6`.
-/

section OverlapChecker

variable {α : Type} [LinearOrderedField α] [FloorRing α]

/-- One pair of a resolution pass (lines 58-88).  The state is the body
list with the running maximum overlap of the pass. -/
def roPair (sqrtFn : α → α) (s : List (RigidBody α) × α) (i j : ℕ) :
    List (RigidBody α) × α :=
  let a := s.1.getD i defaultRigidBody
  let b := s.1.getD j defaultRigidBody
  let d := b.position - a.position
  let dist := sqrtFn (max d.norm2 (1/10^16))
  let min_dist := a.radius + b.radius + 1/10^3
  let overlap := min_dist - dist
  if overlap > 1/10^6 then
    let mo := max s.2 overlap
    let n := d.divs dist
    let aKin := a.kinematic = true ∨ a.mass ≤ 0
    let bKin := b.kinematic = true ∨ b.mass ≤ 0
    if ¬aKin ∧ ¬bKin then
      (rbMapPos (rbMapPos s.1 i fun p => p - (overlap * (1/2)) • n) j
        fun p => p + (overlap * (1/2)) • n, mo)
    else if ¬aKin then
      (rbMapPos s.1 i fun p => p - overlap • n, mo)
    else if ¬bKin then
      (rbMapPos s.1 j fun p => p + overlap • n, mo)
    else (s.1, mo)
  else s

/-- One full pass over all ordered pairs `i < j` (lines 54-88). -/
def roPass (sqrtFn : α → α) (bodies : List (RigidBody α)) :
    List (RigidBody α) × α :=
  (List.range bodies.length).foldl
    (fun s i =>
      (List.range bodies.length).foldl
        (fun s j => if i < j then roPair sqrtFn s i j else s) s)
    (bodies, 0)

/-- `resolve_initial_overlaps` (lines 50-103): run passes until one sees
a maximum overlap below `1e-6` (its corrections are kept) or the
iteration budget runs out. -/
def resolve_initial_overlaps (sqrtFn : α → α) :
    ℕ → List (RigidBody α) → List (RigidBody α)
  | 0, bodies => bodies
  | k + 1, bodies =>
    let r := roPass sqrtFn bodies
    if r.2 < 1/10^6 then r.1
    else resolve_initial_overlaps sqrtFn k r.1

theorem foldl_fixed {β γ : Type} (f : γ → β → γ) (l : List β) (c : γ)
    (h : ∀ b ∈ l, f c b = c) : l.foldl f c = c := by
  induction l with
  | nil => rfl
  | cons b l ih =>
    rw [List.foldl_cons, h b (List.mem_cons_self b l)]
    exact ih (fun b' hb' => h b' (List.mem_cons_of_mem b hb'))

theorem roPair_id (sqrtFn : α → α) (s : List (RigidBody α) × α)
    (i j : ℕ)
    (h : (s.1.getD i defaultRigidBody).radius +
        (s.1.getD j defaultRigidBody).radius + 1/10^3 -
        sqrtFn (max (((s.1.getD j defaultRigidBody).position -
          (s.1.getD i defaultRigidBody).position)).norm2 (1/10^16)) ≤
        1/10^6) :
    roPair sqrtFn s i j = s := by
  simp only [roPair]
  rw [if_neg (not_lt.mpr h)]

theorem roPass_id (sqrtFn : α → α) (bodies : List (RigidBody α))
    (hsep : ∀ i j : ℕ, i < j → j < bodies.length →
      (bodies.getD i defaultRigidBody).radius +
        (bodies.getD j defaultRigidBody).radius + 1/10^3 -
        sqrtFn (max (((bodies.getD j defaultRigidBody).position -
          (bodies.getD i defaultRigidBody).position)).norm2 (1/10^16)) ≤
        1/10^6) :
    roPass sqrtFn bodies = (bodies, 0) := by
  simp only [roPass]
  refine foldl_fixed _ _ _ ?_
  intro i _
  refine foldl_fixed _ _ _ ?_
  intro j hj
  split
  · exact roPair_id sqrtFn (bodies, 0) i j
      (hsep i j (by assumption) (List.mem_range.mp hj))
  · rfl

/-- C6 (amended): the pre-pass is a no-op (no body moves at all) on
scenes where every pair is separated by at least the pre-pass's own
margin, `radius_i + radius_j + 1e-3 - 1e-6`; its buffer `1e-3` and
threshold `1e-6` are hard-coded and independent of the rigid-body
configuration, so scenes that only satisfy the configured
`contact_offset`/`penetration_slop` separation can still be moved by
far more than 1e-9. -/
theorem C6_resolve_noop {α : Type} [LinearOrderedField α] [FloorRing α]
    (sqrtFn : α → α) (k : ℕ) (bodies : List (RigidBody α))
    (hsep : ∀ i j : ℕ, i < j → j < bodies.length →
      (bodies.getD i defaultRigidBody).radius +
        (bodies.getD j defaultRigidBody).radius + 1/10^3 -
        sqrtFn (max (((bodies.getD j defaultRigidBody).position -
          (bodies.getD i defaultRigidBody).position)).norm2 (1/10^16)) ≤
        1/10^6) :
    resolve_initial_overlaps sqrtFn k bodies = bodies := by
  cases k with
  | zero => rfl
  | succ k =>
    simp only [resolve_initial_overlaps, roPass_id sqrtFn bodies hsep]
    rw [if_pos (by norm_num)]

/-- Two well-separated unit-diameter bodies (centers 2 apart). -/
noncomputable def c6SepBodies : List (RigidBody ℝ) :=
  [defaultRigidBody, { defaultRigidBody with position := ⟨2, 0, 0⟩ }]

/-- C6 witness: the pre-pass leaves two bodies at distance 2 exactly in
place. -/
theorem C6_resolve_noop_witness :
    resolve_initial_overlaps Real.sqrt 100 c6SepBodies = c6SepBodies :=
  C6_resolve_noop Real.sqrt 100 c6SepBodies (by
    intro i j hij hjlen
    have hj2 : j < 2 := by simpa [c6SepBodies] using hjlen
    have hj1 : j = 1 := by omega
    have hi0 : i = 0 := by omega
    subst hj1
    subst hi0
    have hmax : max ((((c6SepBodies.getD 1 defaultRigidBody).position -
        (c6SepBodies.getD 0 defaultRigidBody).position)).norm2)
        ((1:ℝ)/10^16) = (2:ℝ)^2 := by
      rw [max_eq_left] <;>
        norm_num [c6SepBodies, defaultRigidBody, Vec3.norm2, Vec3.zero]
    rw [hmax, Real.sqrt_sq (by norm_num)]
    norm_num [c6SepBodies, defaultRigidBody])

/-- Two unit-diameter bodies whose centers are 1.000995 apart: separated
by more than radius sum + 1e-3 - 1e-5, yet inside the pre-pass margin
radius sum + 1e-3 - 1e-6. -/
noncomputable def c6OverBodies : List (RigidBody ℝ) :=
  [defaultRigidBody,
    { defaultRigidBody with position := ⟨200199/200000, 0, 0⟩ }]

/-- The same bodies after one pre-pass: each pushed 1/400000 outward
along x, to exact separation 1.001. -/
noncomputable def c6OverBodies' : List (RigidBody ℝ) :=
  [{ defaultRigidBody with position := ⟨-(1/400000), 0, 0⟩ },
    { defaultRigidBody with position := ⟨400399/400000, 0, 0⟩ }]

theorem c6_pass1 :
    roPass Real.sqrt c6OverBodies = (c6OverBodies', 1/200000) := by
  have hmax : max ((((c6OverBodies.getD 1 defaultRigidBody).position -
      (c6OverBodies.getD 0 defaultRigidBody).position)).norm2)
      ((1:ℝ)/10^16) = ((200199:ℝ)/200000)^2 := by
    rw [max_eq_left] <;>
      norm_num [c6OverBodies, defaultRigidBody, Vec3.norm2, Vec3.zero]
  have hrange : List.range (c6OverBodies : List (RigidBody ℝ)).length
      = [0, 1] := rfl
  simp only [roPass, hrange, List.foldl_cons, List.foldl_nil,
    lt_self_iff_false, Nat.zero_lt_one, Nat.not_lt_zero, if_true, if_false]
  simp only [roPair]
  rw [hmax, Real.sqrt_sq (by norm_num)]
  norm_num [c6OverBodies, c6OverBodies', defaultRigidBody, rbMapPos,
    Vec3.norm2, Vec3.zero, Vec3.divs, List.getD_cons_zero,
    List.getD_cons_succ]

theorem c6_pass2 : roPass Real.sqrt c6OverBodies' = (c6OverBodies', 0) :=
  roPass_id _ _ (by
    intro i j hij hjlen
    have hj2 : j < 2 := by simpa [c6OverBodies'] using hjlen
    have hj1 : j = 1 := by omega
    have hi0 : i = 0 := by omega
    subst hj1
    subst hi0
    have hmax : max ((((c6OverBodies'.getD 1 defaultRigidBody).position -
        (c6OverBodies'.getD 0 defaultRigidBody).position)).norm2)
        ((1:ℝ)/10^16) = ((1001:ℝ)/1000)^2 := by
      rw [max_eq_left] <;>
        norm_num [c6OverBodies', defaultRigidBody, Vec3.norm2, Vec3.zero]
    rw [hmax, Real.sqrt_sq (by norm_num)]
    norm_num [c6OverBodies', defaultRigidBody])

/-- C6 counterexample: the two bodies of `c6OverBodies` are separated by
1.000995, which is at least radius sum + contact_offset −
penetration_slop for the claimed defaults (1e-3 and 1e-5) as well as for
the actual defaults (1e-4 and 1e-4); yet the pre-pass moves body 0 by
1/400000 = 2.5e-6 > 1e-9. -/
theorem C6_counterexample :
    (c6OverBodies.getD 0 defaultRigidBody).radius +
        (c6OverBodies.getD 1 defaultRigidBody).radius + 1/10^3 - 1/10^5 ≤
      Real.sqrt (((c6OverBodies.getD 1 defaultRigidBody).position -
        (c6OverBodies.getD 0 defaultRigidBody).position).norm2) ∧
    ((resolve_initial_overlaps Real.sqrt 100 c6OverBodies).getD 0
        defaultRigidBody).position.x = -(1/400000) ∧
    ((1:ℝ)/400000 > 1/10^9) := by
  refine ⟨?_, ?_, by norm_num⟩
  · have hn2 : (((c6OverBodies.getD 1 defaultRigidBody).position -
        (c6OverBodies.getD 0 defaultRigidBody).position)).norm2 =
        ((200199:ℝ)/200000)^2 := by
      norm_num [c6OverBodies, defaultRigidBody, Vec3.norm2, Vec3.zero]
    rw [hn2, Real.sqrt_sq (by norm_num)]
    norm_num [c6OverBodies, defaultRigidBody]
  · have step : ∀ (k : ℕ) (bodies : List (RigidBody ℝ)),
        resolve_initial_overlaps Real.sqrt (k+1) bodies =
          if (roPass Real.sqrt bodies).2 < 1/10^6 then
            (roPass Real.sqrt bodies).1
          else resolve_initial_overlaps Real.sqrt k
            (roPass Real.sqrt bodies).1 := fun k bodies => rfl
    rw [show (100:ℕ) = 99 + 1 from rfl, step 99, c6_pass1]
    rw [if_neg (by norm_num)]
    rw [show ((c6OverBodies', (1:ℝ)/200000).1) = c6OverBodies' from rfl]
    rw [show (99:ℕ) = 98 + 1 from rfl, step 98, c6_pass2]
    rw [if_pos (by norm_num)]
    norm_num [c6OverBodies', defaultRigidBody, List.getD_cons_zero]

end OverlapChecker

/-!
## World and scheduler

`simcore/world.hpp`: `World` holds `time`, `gravity`, the rigid bodies
and the MD particles, plus the scheduler; `World::step(dt)` runs
`scheduler.tick(*this, dt)` and then adds `dt` to `time`.
`simcore/scheduler/scheduler.hpp`: the scheduler holds an ordered list
of entries (a system with a per-system substep count, default 1);
`add` appends unconditionally; `tick` runs each entry's system
`substeps` times at `local_dt = dt / substeps`.  The registered system
kinds of this repository are `RigidBodySystem` (immutable config) and
`MDSystem` (mutable state).  The scheduler entries are modelled beside
the world rather than inside it.
-/

section WorldScheduler

variable {α : Type} [LinearOrderedField α] [FloorRing α]

/-- `struct World` (state fields). -/
structure World (α : Type) where
  time : α
  gravity : Vec3 α
  rigid_bodies : List (RigidBody α)
  md_particles : List (Particle α)

/-- The two `ISystem` implementations of the repository. -/
inductive SystemK (α : Type) where
  | rb (cfg : RigidBodySystemConfig α)
  | md (st : MDState α)

/-- One `system->step(world, dt)` call.  The MD step is fallible (its
neighbor-list maintenance reads `positions[0]`). -/
def sysStep (sqrtFn : α → α) (sys : SystemK α) (w : World α) (dt : α) :
    Option (SystemK α × World α) :=
  match sys with
  | .rb cfg =>
    some (.rb cfg,
      { w with rigid_bodies := rbStep sqrtFn cfg w.gravity w.rigid_bodies dt })
  | .md st =>
    match mdIntegrate sqrtFn st w.md_particles dt with
    | none => none
    | some (st1, ps) => some (.md st1, { w with md_particles := ps })

/-- A scheduler `Entry`. -/
structure Entry (α : Type) where
  system : SystemK α
  substeps : ℤ

/-- `Scheduler::add`: unconditional `push_back`. -/
def schedulerAdd (entries : List (Entry α)) (sys : SystemK α)
    (substeps : ℤ) : List (Entry α) :=
  entries ++ [⟨sys, substeps⟩]

/-- The inner substep loop of `Scheduler::tick`
(`for (int s=0; s<e.substeps; ++s)`). -/
def entryRun (sqrtFn : α → α) :
    ℕ → SystemK α → World α → α → Option (SystemK α × World α)
  | 0, sys, w, _ => some (sys, w)
  | k + 1, sys, w, dt =>
    match sysStep sqrtFn sys w dt with
    | none => none
    | some (sys1, w1) => entryRun sqrtFn k sys1 w1 dt

/-- `Scheduler::tick` over the entry list:
`local_dt = dt / double(substeps)`, then the substep loop. -/
def schedulerTick (sqrtFn : α → α) :
    List (Entry α) → World α → α → Option (List (Entry α) × World α)
  | [], w, _ => some ([], w)
  | e :: rest, w, dt =>
    match entryRun sqrtFn e.substeps.toNat e.system w
        (dt / ((e.substeps : ℤ) : α)) with
    | none => none
    | some (sys1, w1) =>
      match schedulerTick sqrtFn rest w1 dt with
      | none => none
      | some (rest1, w2) => some (⟨sys1, e.substeps⟩ :: rest1, w2)

/-- `World::step(dt)`: tick, then `time += dt`. -/
def worldStep (sqrtFn : α → α) (w : World α) (entries : List (Entry α))
    (dt : α) : Option (List (Entry α) × World α) :=
  match schedulerTick sqrtFn entries w dt with
  | none => none
  | some (entries1, w1) => some (entries1, { w1 with time := w1.time + dt })

/-- Repeated world steps at a fixed `dt`. -/
def worldSteps (sqrtFn : α → α) (dt : α) :
    ℕ → List (Entry α) → World α → Option (List (Entry α) × World α)
  | 0, entries, w => some (entries, w)
  | k + 1, entries, w =>
    match worldStep sqrtFn w entries dt with
    | none => none
    | some (entries1, w1) => worldSteps sqrtFn dt k entries1 w1

/-- The MD system state after `k` maintenance checks with no rebuild. -/
def c8St (k : ℤ) : MDState ℚ :=
  { mdSystemNew defaultMDConfig with stepsSinceCheck := k }

/-- An empty world (no bodies, no particles) at time `t`. -/
def c8WorldAt (t : ℚ) : World ℚ :=
  ⟨t, ⟨0, -981/100, 0⟩, [], []⟩

/-- A fresh default MD system registered with 1 substep. -/
def c8Entries : List (Entry ℚ) :=
  schedulerAdd [] (SystemK.md (mdSystemNew defaultMDConfig)) 1

theorem c8_md_step (k : ℤ) (hk : k + 1 < 10) (dt : ℚ) :
    mdIntegrate (fun x : ℚ => x) (c8St k) [] dt = some (c8St (k+1), []) := by
  simp only [mdIntegrate, mdMaintain, c8St, mdSystemNew, defaultMDConfig,
    if_true]
  rw [if_neg (not_le.mpr hk)]
  simp [nlNew, computeForces, lj_forces_all_pairs, allPairsList,
    halfKickDrift, halfKick, berendsen]

theorem c8_step (k : ℤ) (hk : k + 1 < 10) (t : ℚ) :
    worldStep (fun x : ℚ => x) (c8WorldAt t)
        [⟨SystemK.md (c8St k), 1⟩] (1/10) =
      some ([⟨SystemK.md (c8St (k+1)), 1⟩], c8WorldAt (t + 1/10)) := by
  simp only [worldStep, schedulerTick, entryRun, sysStep, c8WorldAt,
    Int.toNat_one]
  rw [c8_md_step k hk]

theorem c8_chain (n : ℕ) (es es1 : List (Entry ℚ)) (w w1 : World ℚ)
    (h : worldStep (fun x : ℚ => x) w es (1/10) = some (es1, w1)) :
    worldSteps (fun x : ℚ => x) (1/10) (n+1) es w =
      worldSteps (fun x : ℚ => x) (1/10) n es1 w1 := by
  simp only [worldSteps]
  rw [h]

theorem c8_entries_eq : c8Entries = [⟨SystemK.md (c8St 0), 1⟩] := by
  simp [c8Entries, schedulerAdd, c8St, mdSystemNew]

theorem c8_run9 :
    worldSteps (fun x : ℚ => x) (1/10) 9 c8Entries (c8WorldAt 0) =
      some ([⟨SystemK.md (c8St 9), 1⟩], c8WorldAt (9/10)) := by
  rw [c8_entries_eq,
    c8_chain 8 _ _ _ _ (c8_step 0 (by decide) 0),
    c8_chain 7 _ _ _ _ (c8_step (0+1) (by decide) (0+1/10)),
    c8_chain 6 _ _ _ _ (c8_step (0+1+1) (by decide) (0+1/10+1/10)),
    c8_chain 5 _ _ _ _ (c8_step (0+1+1+1) (by decide) (0+1/10+1/10+1/10)),
    c8_chain 4 _ _ _ _ (c8_step (0+1+1+1+1) (by decide)
      (0+1/10+1/10+1/10+1/10)),
    c8_chain 3 _ _ _ _ (c8_step (0+1+1+1+1+1) (by decide)
      (0+1/10+1/10+1/10+1/10+1/10)),
    c8_chain 2 _ _ _ _ (c8_step (0+1+1+1+1+1+1) (by decide)
      (0+1/10+1/10+1/10+1/10+1/10+1/10)),
    c8_chain 1 _ _ _ _ (c8_step (0+1+1+1+1+1+1+1) (by decide)
      (0+1/10+1/10+1/10+1/10+1/10+1/10+1/10)),
    c8_chain 0 _ _ _ _ (c8_step (0+1+1+1+1+1+1+1+1) (by decide)
      (0+1/10+1/10+1/10+1/10+1/10+1/10+1/10+1/10))]
  simp only [worldSteps]
  norm_num [c8St, c8WorldAt]

theorem c8_step10 (t : ℚ) :
    worldStep (fun x : ℚ => x) (c8WorldAt t)
      [⟨SystemK.md (c8St 9), 1⟩] (1/10) = none := by
  have hmd : ∀ dt : ℚ,
      mdIntegrate (fun x : ℚ => x) (c8St 9) [] dt = none := by
    intro dt
    simp only [mdIntegrate, mdMaintain, c8St, mdSystemNew,
      defaultMDConfig, if_true]
    rw [if_pos (by decide)]
    simp [nlNeedsRebuild, nlNew]
  simp only [worldStep, schedulerTick, entryRun, sysStep, c8WorldAt,
    Int.toNat_one]
  rw [hmd]

/-- C8: nine ticks of an empty world (no bodies, no particles) with a
fresh default MD system each advance time by exactly dt and change
nothing else; the tenth tick reads `positions[0]` of an empty vector
inside the neighbor-list maintenance (undefined behaviour, modelled as
`none`), so the world-advance contract is not met for every state. -/
theorem C8_empty_world_ten_ticks :
    (worldSteps (fun x : ℚ => x) (1/10) 9 c8Entries (c8WorldAt 0)).map
        (fun r => (r.2.time, r.2.rigid_bodies, r.2.md_particles)) =
      some (9/10, [], []) ∧
    worldSteps (fun x : ℚ => x) (1/10) 10 c8Entries (c8WorldAt 0) =
      none := by
  constructor
  · rw [c8_run9]
    rfl
  · rw [c8_entries_eq,
      c8_chain 9 _ _ _ _ (c8_step 0 (by decide) 0),
      c8_chain 8 _ _ _ _ (c8_step (0+1) (by decide) (0+1/10)),
      c8_chain 7 _ _ _ _ (c8_step (0+1+1) (by decide) (0+1/10+1/10)),
      c8_chain 6 _ _ _ _ (c8_step (0+1+1+1) (by decide)
        (0+1/10+1/10+1/10)),
      c8_chain 5 _ _ _ _ (c8_step (0+1+1+1+1) (by decide)
        (0+1/10+1/10+1/10+1/10)),
      c8_chain 4 _ _ _ _ (c8_step (0+1+1+1+1+1) (by decide)
        (0+1/10+1/10+1/10+1/10+1/10)),
      c8_chain 3 _ _ _ _ (c8_step (0+1+1+1+1+1+1) (by decide)
        (0+1/10+1/10+1/10+1/10+1/10+1/10)),
      c8_chain 2 _ _ _ _ (c8_step (0+1+1+1+1+1+1+1) (by decide)
        (0+1/10+1/10+1/10+1/10+1/10+1/10+1/10)),
      c8_chain 1 _ _ _ _ (c8_step (0+1+1+1+1+1+1+1+1) (by decide)
        (0+1/10+1/10+1/10+1/10+1/10+1/10+1/10+1/10)),
      show (0+1+1+1+1+1+1+1+1+1 : ℤ) = 9 by decide]
    simp only [worldSteps]
    rw [c8_step10]

/-! ### Construction never validates (claim C5) -/

/-- An invalid neighbor-list configuration: negative cutoff. -/
def c5BadCfg : NeighborListConfig ℚ :=
  { cutoff := -1
    skin := 0
    cell_size_factor := 1
    domain_min := ⟨0, 0, 0⟩
    domain_max := ⟨1, 1, 1⟩
    enable_stats := false }

/-- Two particles 0.5 apart inside the unit domain. -/
def c5Pos : List (Vec3 ℚ) := [⟨1/4, 1/2, 1/2⟩, ⟨3/4, 1/2, 1/2⟩]

theorem c5_grid : setupGrid c5BadCfg = ⟨1, 1, 1, ⟨1, 1, 1⟩⟩ := by
  unfold setupGrid c5BadCfg
  norm_num [truncToInt, Vec3.sub_def, Int.ceil_neg]

theorem c5_coords0 :
    cellCoords c5BadCfg (setupGrid c5BadCfg) (⟨1/4, 1/2, 1/2⟩ : Vec3 ℚ) =
      (0, 0, 0) := by
  rw [c5_grid]
  unfold cellCoords c5BadCfg coordClamp
  norm_num [truncToInt, Vec3.sub_def]

theorem c5_coords1 :
    cellCoords c5BadCfg (setupGrid c5BadCfg) (⟨3/4, 1/2, 1/2⟩ : Vec3 ℚ) =
      (0, 0, 0) := by
  rw [c5_grid]
  unfold cellCoords c5BadCfg coordClamp
  norm_num [truncToInt, Vec3.sub_def]

theorem c5_cells :
    cellsMap c5BadCfg (setupGrid c5BadCfg) c5Pos (0, 0, 0) = [0, 1] := by
  rw [cellsMap_eq_filter]
  rw [show List.range c5Pos.length = [0, 1] from rfl]
  have h0 : inCell c5BadCfg (setupGrid c5BadCfg) c5Pos (0, 0, 0) 0 = true := by
    simp only [inCell, c5Pos, List.getD_cons_zero]
    exact decide_eq_true c5_coords0
  have h1 : inCell c5BadCfg (setupGrid c5BadCfg) c5Pos (0, 0, 0) 1 = true := by
    simp only [inCell, c5Pos, List.getD_cons_succ, List.getD_cons_zero]
    exact decide_eq_true c5_coords1
  simp only [List.filter, h0, h1]

theorem c5_pair_mem : ((0 : ℕ), (1 : ℕ)) ∈ buildPairs c5BadCfg c5Pos := by
  show (0, 1) ∈ (allCellCoords (setupGrid c5BadCfg)).flatMap
    (cellBlock c5BadCfg (setupGrid c5BadCfg) c5Pos
      (cellsMap c5BadCfg (setupGrid c5BadCfg) c5Pos))
  refine List.mem_flatMap.mpr ⟨(0, 0, 0), ?_, ?_⟩
  · refine (mem_allCellCoords _ (0, 0, 0)).mpr ?_
    rw [c5_grid]
    norm_num
  · refine (mem_cellBlock c5BadCfg _ c5Pos _ (0, 0, 0) (0, 1)).mpr
      (Or.inl ?_)
    refine List.mem_filter.mpr ⟨?_, ?_⟩
    · rw [c5_cells]
      decide
    · unfold closePair
      refine decide_eq_true ?_
      show dist2 c5Pos 0 1 < _
      unfold dist2 c5Pos c5BadCfg Vec3.norm2
      norm_num [Vec3.sub_def]

/-- C5 counterexample: a NeighborList constructed with cutoff −1 is not
rejected — it has a well-formed 1×1×1 grid, and a build over it even
records the close pair (0, 1); likewise the scheduler accepts a system
registered with substep count 0, and the tick over it completes,
advancing time. -/
theorem C5_counterexample :
    c5BadCfg.cutoff ≤ 0 ∧
    setupGrid c5BadCfg = ⟨1, 1, 1, ⟨1, 1, 1⟩⟩ ∧
    ((0 : ℕ), (1 : ℕ)) ∈ (nlBuild (nlNew c5BadCfg) c5Pos).pairs ∧
    (nlBuild (nlNew c5BadCfg) c5Pos).valid = true ∧
    (schedulerAdd [] (SystemK.rb
      (defaultRigidBodySystemConfig : RigidBodySystemConfig ℚ)) 0).length
      = 1 ∧
    (worldStep (fun x : ℚ => x) ⟨0, ⟨0, 0, 0⟩, [], []⟩
        (schedulerAdd [] (SystemK.rb defaultRigidBodySystemConfig) 0)
        1).map (fun r => r.2.time) = some 1 := by
  refine ⟨by norm_num [c5BadCfg], c5_grid, c5_pair_mem, rfl, rfl, ?_⟩
  simp only [worldStep, schedulerTick, schedulerAdd, List.nil_append,
    Int.toNat_zero, entryRun]
  norm_num [Option.map]

theorem entryRun_rb (sqrtFn : α → α) (cfg : RigidBodySystemConfig α)
    (dt : α) : ∀ (n : ℕ) (w : World α), ∃ w' : World α,
      entryRun sqrtFn n (SystemK.rb cfg) w dt = some (SystemK.rb cfg, w') ∧
        w'.time = w.time := by
  intro n
  induction n with
  | zero => intro w; exact ⟨w, rfl, rfl⟩
  | succ n ih =>
    intro w
    obtain ⟨w', h1, h2⟩ :=
      ih { w with rigid_bodies := rbStep sqrtFn cfg w.gravity w.rigid_bodies dt }
    exact ⟨w', h1, h2⟩

/-- C5 (amended): nothing validates configuration.  The NeighborList
constructor accepts any cutoff/skin/domain and always produces a usable
grid of at least 1×1×1 cells; `Scheduler::add` appends its entry
unconditionally for any substep count (zero or negative included); and a
tick over such an entry completes, advancing time by dt (a non-positive
substep count simply runs the system zero times). -/
theorem C5_no_validation {α : Type} [LinearOrderedField α] [FloorRing α]
    (sqrtFn : α → α) (cfg : NeighborListConfig α)
    (entries : List (Entry α)) (sys : SystemK α) (substeps : ℤ)
    (rbcfg : RigidBodySystemConfig α) (w : World α) (dt : α) :
    1 ≤ (nlNew cfg).grid.nx ∧ 1 ≤ (nlNew cfg).grid.ny ∧
    1 ≤ (nlNew cfg).grid.nz ∧
    schedulerAdd entries sys substeps = entries ++ [⟨sys, substeps⟩] ∧
    ∃ w' : World α,
      worldStep sqrtFn w (schedulerAdd [] (SystemK.rb rbcfg) substeps) dt =
        some ([⟨SystemK.rb rbcfg, substeps⟩], w') ∧
      w'.time = w.time + dt := by
  refine ⟨setupGrid_nx_pos cfg, setupGrid_ny_pos cfg,
    setupGrid_nz_pos cfg, rfl, ?_⟩
  obtain ⟨w', h1, h2⟩ := entryRun_rb sqrtFn rbcfg
    (dt / ((substeps : ℤ) : α)) substeps.toNat w
  refine ⟨{ w' with time := w'.time + dt }, ?_, by rw [h2]⟩
  simp only [worldStep, schedulerTick, schedulerAdd, List.nil_append]
  rw [h1]

end WorldScheduler

end Minerva
